import Mathlib

/-!
Verification of the Cache component of the zero filesystem
(src/zero/cache.py) against its natural-language specification.

The Python source is embedded shallowly:

* The on-disk cache directory, the inode registry, the dirty/remote state
  store, the ranker and the remote API are modelled as fields of an explicit
  system state `Sys`.  Each Cache method becomes a Lean function
  `Sys → Sys × Except Err α`; Python exceptions become `Except.error`, and
  effects performed before a raise are kept in the returned state, exactly
  as they persist in the running process.
* The collaborators (path converter, path-lock manager, inode registry,
  state store, ranker, remote api, and the helpers in file_utils) are not
  part of src/zero; they are modelled from the spec, as marked in their
  doc comments.
* Every os call that the Python code performs is recorded as an `Event` in
  a trace, which also records path-lock acquisitions and ranker
  notifications; ordering claims are settled against this trace.
-/

/-- Content-state tag kept by the state store (spec section 3). -/
inductive Tag
  | cleanLocal
  | dirty
  | remote
  | toDelete
deriving DecidableEq, Repr

/-- A stat dictionary as produced by file_utils.get_stat_dictionary and
serialized into placeholder files.  Times are modelled as integers. -/
structure StatDict where
  st_atime : Int
  st_mtime : Int
  st_size : Int
  st_mode : Int
  st_uid : Int
  st_gid : Int
deriving DecidableEq, Repr

/-- Contents of an on-disk node: raw bytes, a serialized stat dictionary
(the contents of a placeholder, kept structured so that json.load and
json.dump are exact inverses), a directory, or a symbolic link. -/
inductive FileData
  | bytes (content : String)
  | statJson (d : StatDict)
  | dir
  | symlink (target : String)
deriving DecidableEq, Repr

/-- An on-disk node together with its POSIX metadata. -/
structure File where
  data : FileData
  atime : Int
  mtime : Int
  mode : Int
  uid : Int
  gid : Int
deriving DecidableEq, Repr

/-- Modelled from the spec: an on-disk name produced by the path converter.
The spec encodes placeholders by a reserved suffix appended to the cache
path; since the suffix is reserved (no logical name may carry it), the
encoding is modelled as a cache path paired with a placeholder mark, which
makes the bare and the placeholder form of a path distinct by construction. -/
structure CKey where
  path : String
  dummy : Bool
deriving DecidableEq, Repr

/-- Flags passed to os.open, restricted to the ones the Cache uses. -/
structure Flags where
  creat : Bool
  trunc : Bool
  write : Bool
deriving DecidableEq, Repr

/-- os.open flags of a read-only open. -/
def O_RDONLY : Flags := ⟨false, false, false⟩

/-- os.open flags used by Cache.create. -/
def O_WRONLY_CREAT_TRUNC : Flags := ⟨true, true, true⟩

/-- Errors surfaced by the embedded operations.  fuse- errors correspond to
FuseOSError raised by cache.py itself, the others are passthrough Python
exceptions from os / json / list indexing. -/
inductive Err
  | fuseENOENT
  | fuseENETUNREACH
  | fileNotFound
  | fileExists
  | notADirectory
  | isADirectory
  | typeError
  | jsonError
  | indexError
  | badFd
deriving DecidableEq, Repr

/-- Trace events: path-lock acquisitions, ranker notifications (the inode
argument is optional because Python may pass None through), and every
state-changing os call plus remote download. -/
inductive Event
  | lock (path : String) (exclusiveOnLeaf : Bool) (highPriority : Bool) (maxRetries : Nat)
  | lockDefault (path : String)
  | rankerAccess (inode : Option Nat)
  | rankerDelete (inode : Option Nat)
  | fsOpen (k : CKey)
  | fsWrite (k : CKey)
  | fsTruncate (k : CKey)
  | fsRename (src dst : CKey)
  | fsUnlink (k : CKey)
  | fsMkdir (k : CKey)
  | fsRmdir (k : CKey)
  | fsUtime (k : CKey)
  | apiDownload (inode : Option Nat)
deriving DecidableEq, Repr

/-- Association-list lookup: the value of the first entry with the given
key, if any. -/
def alookup [DecidableEq κ] : List (κ × α) → κ → Option α
  | [], _ => none
  | (k, v) :: l, k' => if k' = k then some v else alookup l k'

/-- Association-list update: replace the first entry with the given key, or
append a new entry if there is none. -/
def aset [DecidableEq κ] : List (κ × α) → κ → α → List (κ × α)
  | [], k, v => [(k, v)]
  | (k0, v0) :: l, k, v =>
      if k = k0 then (k, v) :: l else (k0, v0) :: aset l k v

/-- Association-list removal of every entry with the given key. -/
def aremove [DecidableEq κ] : List (κ × α) → κ → List (κ × α)
  | [], _ => []
  | (k0, v0) :: l, k =>
      if k = k0 then aremove l k else (k0, v0) :: aremove l k

/-- The explicit system state threaded through every Cache operation:
the on-disk cache directory (a finite map from on-disk names to nodes),
the inode registry, the state store, the open file descriptors, the remote
api download function, the current wall-clock time used for mtime updates,
and the event trace. -/
structure Sys where
  disk : List (CKey × File)
  registry : List (String × Nat)
  nextInode : Nat
  states : List (Option Nat × Tag)
  fds : List (Nat × CKey)
  nextFd : Nat
  download : Nat → Option String
  now : Int
  trace : List Event

/-- Append an event to the trace. -/
def record (s : Sys) (e : Event) : Sys :=
  { s with trace := s.trace ++ [e] }

/-- Modelled from the spec: converter.to_cache_path, the bijection from a
logical path to its on-disk cache path (bare form). -/
def to_cache_path (p : String) : CKey := ⟨p, false⟩

/-- Modelled from the spec: converter.add_dummy_ending, appending the
reserved placeholder suffix to a cache path. -/
def add_dummy_ending (k : CKey) : CKey := ⟨k.path, true⟩

/-- Modelled from the spec: converter.strip_dummy_ending. -/
def strip_dummy_ending (k : CKey) : CKey := ⟨k.path, false⟩

/-- Modelled from the spec: converter.is_dummy. -/
def is_dummy (k : CKey) : Bool := k.dummy

/-- Modelled from the spec: inode_store.get_inode(path), the inode
registered for a logical path, if any. -/
def get_inode (s : Sys) (path : String) : Option Nat :=
  alookup s.registry path

/-- Modelled from the spec: inode_store.get_paths(inode), the ordered list
of logical paths of an inode, first entry canonical.  An absent argument
(Python None) has no paths. -/
def get_paths (s : Sys) (inode : Option Nat) : List String :=
  match inode with
  | none => []
  | some i => (s.registry.filter (fun e => e.2 = i)).map Prod.fst

/-- Modelled from the spec: inode_store.create_path(path), registering a
path under a fresh inode identifier. -/
def create_path (s : Sys) (path : String) : Sys :=
  { s with registry := s.registry ++ [(path, s.nextInode)],
           nextInode := s.nextInode + 1 }

/-- Modelled from the spec: inode_store.delete_path(path). -/
def delete_path (s : Sys) (path : String) : Sys :=
  { s with registry := aremove s.registry path }

/-- Modelled from the spec: inode_store.rename_paths(old, new), re-keying
the registration of the old path to the new path. -/
def rename_paths (s : Sys) (old new : String) : Sys :=
  { s with registry :=
      s.registry.map (fun e => if e.1 = old then (new, e.2) else e) }

/-- Modelled from the spec: state_store.set_dirty(inode).  The state store
is keyed by Option Nat because the Python code may pass None through. -/
def set_dirty (s : Sys) (inode : Option Nat) : Sys :=
  { s with states := aset s.states inode Tag.dirty }

/-- Modelled from the spec: state_store.set_remote(inode). -/
def set_remote (s : Sys) (inode : Option Nat) : Sys :=
  { s with states := aset s.states inode Tag.remote }

/-- Modelled from the spec: state_store.set_downloaded(inode), marking the
inode clean-local. -/
def set_downloaded (s : Sys) (inode : Option Nat) : Sys :=
  { s with states := aset s.states inode Tag.cleanLocal }

/-- Modelled from the spec: state_store.set_todelete(inode). -/
def set_todelete (s : Sys) (inode : Option Nat) : Sys :=
  { s with states := aset s.states inode Tag.toDelete }

/-- Modelled from the spec: state_store.is_clean(inode). -/
def is_clean (s : Sys) (inode : Option Nat) : Bool :=
  alookup s.states inode = some Tag.cleanLocal

/-- Modelled from the spec: state_store.is_remote(inode). -/
def is_remote (s : Sys) (inode : Option Nat) : Bool :=
  alookup s.states inode = some Tag.remote

/-- Modelled from the spec: state_store.exists(inode). -/
def state_exists (s : Sys) (inode : Option Nat) : Bool :=
  (alookup s.states inode).isSome

/-- Modelled from the spec: ranker.handle_inode_access(inode), fire and
forget; only the notification itself is observable, as a trace event. -/
def handle_inode_access (s : Sys) (inode : Option Nat) : Sys :=
  record s (Event.rankerAccess inode)

/-- Modelled from the spec: ranker.handle_inode_delete(inode). -/
def handle_inode_delete (s : Sys) (inode : Option Nat) : Sys :=
  record s (Event.rankerDelete inode)

/-- os.path.exists on an on-disk name. -/
def os_path_exists (s : Sys) (k : CKey) : Bool :=
  (alookup s.disk k).isSome

/-- Size in bytes reported for an on-disk node. -/
def dataSize : FileData → Int
  | .bytes c => Int.ofNat c.length
  | .statJson _ => 0
  | .dir => 0
  | .symlink t => Int.ofNat t.length

/-- file_utils.get_stat_dictionary(path): the stat dictionary of the node
currently on disk at the given name, if it exists.  Modelled from the spec
(file_utils is not part of src/zero). -/
def get_stat_dictionary (s : Sys) (k : CKey) : Option StatDict :=
  (alookup s.disk k).map fun f =>
    ⟨f.atime, f.mtime, dataSize f.data, f.mode, f.uid, f.gid⟩

/-- os.open.  Opening an existing node truncates it when O_TRUNC is given;
a missing node is created empty when O_CREAT is given, else the open fails.
Write-flavoured opens of a directory fail.  Returns a fresh descriptor
bound to the opened name. -/
def os_open (s : Sys) (k : CKey) (flags : Flags) (mode : Int) :
    Sys × Except Err Nat :=
  match alookup s.disk k with
  | some f =>
      match f.data with
      | .dir =>
          if flags.write || flags.trunc || flags.creat then
            (s, .error .isADirectory)
          else
            (record { s with fds := aset s.fds s.nextFd k,
                             nextFd := s.nextFd + 1 } (Event.fsOpen k),
             .ok s.nextFd)
      | _ =>
          let f' := if flags.trunc then
              { f with data := .bytes "", mtime := s.now } else f
          (record { s with disk := aset s.disk k f',
                           fds := aset s.fds s.nextFd k,
                           nextFd := s.nextFd + 1 } (Event.fsOpen k),
           .ok s.nextFd)
  | none =>
      if flags.creat then
        (record { s with disk := aset s.disk k
                             ⟨.bytes "", s.now, s.now, mode, 0, 0⟩,
                         fds := aset s.fds s.nextFd k,
                         nextFd := s.nextFd + 1 } (Event.fsOpen k),
         .ok s.nextFd)
      else
        (s, .error .fileNotFound)

/-- os.rename.  Fails when the source is missing; otherwise moves the node,
metadata included, to the destination name (overwriting it). -/
def os_rename (s : Sys) (src dst : CKey) : Sys × Except Err Unit :=
  match alookup s.disk src with
  | none => (s, .error .fileNotFound)
  | some f =>
      (record { s with disk := aset (aremove s.disk src) dst f }
         (Event.fsRename src dst), .ok ())

/-- os.unlink, including the Python TypeError raised when the argument is
None (as _get_path_or_dummy may return). -/
def os_unlink (s : Sys) (k : Option CKey) : Sys × Except Err Unit :=
  match k with
  | none => (s, .error .typeError)
  | some k =>
      match alookup s.disk k with
      | none => (s, .error .fileNotFound)
      | some f =>
          match f.data with
          | .dir => (s, .error .isADirectory)
          | _ => (record { s with disk := aremove s.disk k }
                    (Event.fsUnlink k), .ok ())

/-- os.mkdir. -/
def os_mkdir (s : Sys) (k : CKey) (mode : Int) : Sys × Except Err Unit :=
  match alookup s.disk k with
  | some _ => (s, .error .fileExists)
  | none =>
      (record { s with disk := aset s.disk k ⟨.dir, s.now, s.now, mode, 0, 0⟩ }
         (Event.fsMkdir k), .ok ())

/-- os.rmdir.  Emptiness of the directory is not modelled; the spec notes
the core does not validate it. -/
def os_rmdir (s : Sys) (k : CKey) : Sys × Except Err Unit :=
  match alookup s.disk k with
  | none => (s, .error .fileNotFound)
  | some f =>
      match f.data with
      | .dir => (record { s with disk := aremove s.disk k }
                   (Event.fsRmdir k), .ok ())
      | _ => (s, .error .notADirectory)

/-- os.utime(path, (atime, mtime)). -/
def os_utime (s : Sys) (k : CKey) (atime mtime : Int) : Sys × Except Err Unit :=
  match alookup s.disk k with
  | none => (s, .error .fileNotFound)
  | some f =>
      (record { s with disk := aset s.disk k { f with atime := atime, mtime := mtime } }
         (Event.fsUtime k), .ok ())

/-- os.lseek followed by os.read on a descriptor: returns up to size bytes
of the bytes content at the given offset.  Reading through a descriptor
whose name no longer resolves, or whose node is not a regular byte file,
fails. -/
def os_read (s : Sys) (fh : Nat) (size offset : Nat) : Sys × Except Err String :=
  match alookup s.fds fh with
  | none => (s, .error .badFd)
  | some k =>
      match alookup s.disk k with
      | none => (s, .error .badFd)
      | some f =>
          match f.data with
          | .bytes c => (s, .ok ((c.drop offset).take size))
          | _ => (s, .error .badFd)

/-- Overwriting data at an offset inside existing content, zero-padding the
gap when the offset lies past the end. -/
def spliceAt (c : String) (offset : Nat) (data : String) : String :=
  c.take offset
    ++ String.mk (List.replicate (offset - c.length) (Char.ofNat 0))
    ++ data
    ++ c.drop (offset + data.length)

/-- os.lseek followed by os.write on a descriptor; updates mtime and
returns the byte count written. -/
def os_write (s : Sys) (fh : Nat) (data : String) (offset : Nat) :
    Sys × Except Err Nat :=
  match alookup s.fds fh with
  | none => (s, .error .badFd)
  | some k =>
      match alookup s.disk k with
      | none => (s, .error .badFd)
      | some f =>
          match f.data with
          | .bytes c =>
              let f' : File :=
                { f with data := .bytes (spliceAt c offset data), mtime := s.now }
              (record { s with disk := aset s.disk k f' } (Event.fsWrite k),
               .ok data.length)
          | _ => (s, .error .badFd)

/-- json.load over an open placeholder file: succeeds exactly on contents
written by json.dump of a stat dictionary. -/
def json_load (f : File) : Except Err StatDict :=
  match f.data with
  | .statJson d => .ok d
  | _ => .error .jsonError

namespace Cache

/-- Cache._get_path_or_dummy (cache.py lines 19-31): the tolerant resolver;
the bare cache path if it exists, else the placeholder path if it exists,
else None. -/
def _get_path_or_dummy (s : Sys) (fuse_path : String) : Option CKey :=
  let cache_path := to_cache_path fuse_path
  let dummy_cache_path := add_dummy_ending cache_path
  if os_path_exists s cache_path then some cache_path
  else if os_path_exists s dummy_cache_path then some dummy_cache_path
  else none

/-- Cache._replace_dummy (cache.py lines 219-241): hydration.  The inode
argument is optional because _get_path passes get_inode(path) through
unchecked.  The is_remote precondition check in the source only prints a
message and falls through, so it has no effect here.  Steps: read and parse
the stat dictionary from the placeholder; os.rename the placeholder onto
the bare cache path; re-open the bare path with mode w+b, which truncates
it; download the bytes from the remote (a failed download raises
FuseOSError(ENETUNREACH) and leaves the truncated file in place); restore
atime/mtime with os.utime; mark the inode downloaded. -/
def _replace_dummy (s : Sys) (inode : Option Nat) : Sys × Except Err Unit :=
  match (get_paths s inode).head? with
  | none => (s, .error .indexError)
  | some path =>
      let cache_path := to_cache_path path
      let dummy_path := add_dummy_ending cache_path
      match alookup s.disk dummy_path with
      | none => (s, .error .fileNotFound)
      | some dummy_file =>
          match json_load dummy_file with
          | .error e => (s, .error e)
          | .ok stat_dict =>
              match os_rename s dummy_path cache_path with
              | (s1, .error e) => (s1, .error e)
              | (s1, .ok _) =>
                  match alookup s1.disk cache_path with
                  | none => (s1, .error .fileNotFound)
                  | some f =>
                      let f0 : File := { f with data := .bytes "", mtime := s1.now }
                      let s2 := record { s1 with disk := aset s1.disk cache_path f0 }
                          (Event.fsTruncate cache_path)
                      let s3 := record s2 (Event.apiDownload inode)
                      match inode.bind s3.download with
                      | none => (s3, .error .fuseENETUNREACH)
                      | some content =>
                          let f1 : File := { f0 with data := .bytes content, mtime := s3.now }
                          let s4 := record { s3 with disk := aset s3.disk cache_path f1 }
                              (Event.fsWrite cache_path)
                          match os_utime s4 cache_path stat_dict.st_atime stat_dict.st_mtime with
                          | (s5, .error e) => (s5, .error e)
                          | (s5, .ok _) => (set_downloaded s5 inode, .ok ())

/-- Cache._get_path (cache.py lines 33-40): the strict resolver; hydrates
in place when the placeholder exists, then returns the bare cache path. -/
def _get_path (s : Sys) (fuse_path : String) : Sys × Except Err CKey :=
  let cache_path := to_cache_path fuse_path
  if os_path_exists s (add_dummy_ending cache_path) then
    match _replace_dummy s (get_inode s fuse_path) with
    | (s1, .error e) => (s1, .error e)
    | (s1, .ok _) => (s1, .ok cache_path)
  else (s, .ok cache_path)

/-- Cache.open (cache.py lines 51-61): under the path lock, resolve
strictly (hydrating a placeholder) and os.open the bare path with the
caller's flags. -/
def open' (s : Sys) (path : String) (flags : Flags) : Sys × Except Err Nat :=
  let s0 := record s (Event.lock path true true 100)
  match _get_path s0 path with
  | (s1, .error e) => (s1, .error e)
  | (s1, .ok cache_path) => os_open s1 cache_path flags 511

/-- Cache.read (cache.py lines 63-75): shared lock on the leaf, notify the
ranker, seek and read through the caller's descriptor. -/
def read (s : Sys) (path : String) (size offset fh : Nat) :
    Sys × Except Err String :=
  let s0 := record s (Event.lock path false true 100)
  let inode := get_inode s0 path
  let s1 := handle_inode_access s0 inode
  os_read s1 fh size offset

/-- Zero-padded truncation to the given length, as f.truncate(length). -/
def truncPad (c : String) (length : Nat) : String :=
  c.take length ++ String.mk (List.replicate (length - c.length) (Char.ofNat 0))

/-- Cache.truncate (cache.py lines 77-89): under the path lock, resolve
strictly, mark dirty, notify the ranker, then truncate through a
read-write open of the bare path.  Truncating a node whose content is not
raw bytes is modelled as updating mtime only. -/
def truncate (s : Sys) (path : String) (length : Nat) : Sys × Except Err Unit :=
  let s0 := record s (Event.lock path true true 100)
  let inode := get_inode s0 path
  match _get_path s0 path with
  | (s1, .error e) => (s1, .error e)
  | (s1, .ok cache_path) =>
      let s2 := set_dirty s1 inode
      let s3 := handle_inode_access s2 inode
      match alookup s3.disk cache_path with
      | none => (s3, .error .fileNotFound)
      | some f =>
          match f.data with
          | .dir => (s3, .error .isADirectory)
          | .bytes c =>
              let f' : File :=
                { f with data := .bytes (truncPad c length), mtime := s3.now }
              (record { s3 with disk := aset s3.disk cache_path f' }
                 (Event.fsTruncate cache_path), .ok ())
          | _ =>
              let f' : File := { f with mtime := s3.now }
              (record { s3 with disk := aset s3.disk cache_path f' }
                 (Event.fsTruncate cache_path), .ok ())

/-- Cache.write (cache.py lines 91-103): under the path lock, notify the
ranker, seek and write through the caller's descriptor, then mark the
inode dirty.  Note the source notifies the ranker before the os.write. -/
def write (s : Sys) (path : String) (data : String) (offset fh : Nat) :
    Sys × Except Err Nat :=
  let s0 := record s (Event.lock path true true 100)
  let inode := get_inode s0 path
  let s1 := handle_inode_access s0 inode
  match os_write s1 fh data offset with
  | (s2, .error e) => (s2, .error e)
  | (s2, .ok result) => (set_dirty s2 inode, .ok result)

/-- Cache.create (cache.py lines 105-114): os.open the bare cache path
with O_WRONLY, O_CREAT and O_TRUNC, register the path, mark the registered
inode dirty, notify the ranker.  The source takes no path lock here. -/
def create (s : Sys) (path : String) (mode : Int) : Sys × Except Err Nat :=
  let cache_path := to_cache_path path
  match os_open s cache_path O_WRONLY_CREAT_TRUNC mode with
  | (s1, .error e) => (s1, .error e)
  | (s1, .ok result) =>
      let s2 := create_path s1 path
      let leaf_inode := get_inode s2 path
      let s3 := set_dirty s2 leaf_inode
      let s4 := handle_inode_access s3 leaf_inode
      (s4, .ok result)

/-- Cache.mkdir (cache.py lines 155-163): register the path, os.mkdir the
bare cache path.  The source takes no path lock here. -/
def mkdir (s : Sys) (path : String) (mode : Int) : Sys × Except Err Unit :=
  let s1 := create_path s path
  let cache_path := to_cache_path path
  os_mkdir s1 cache_path mode

/-- Cache.rmdir (cache.py lines 165-175): under the path lock, deregister
the path and os.rmdir the bare cache path. -/
def rmdir (s : Sys) (fuse_path : String) : Sys × Except Err Unit :=
  let cache_path := to_cache_path fuse_path
  let s0 := record s (Event.lock fuse_path true true 100)
  let s1 := delete_path s0 fuse_path
  os_rmdir s1 cache_path

/-- Cache._delete_file (cache.py lines 192-198): read the inode, resolve
tolerantly, deregister the path, os.unlink whichever form was found (a
Python TypeError if neither form exists), notify the ranker of the
deletion, and mark the inode to-delete. -/
def _delete_file (s : Sys) (fuse_path : String) : Sys × Except Err Unit :=
  let inode := get_inode s fuse_path
  let cache_path := _get_path_or_dummy s fuse_path
  let s1 := delete_path s fuse_path
  match os_unlink s1 cache_path with
  | (s2, .error e) => (s2, .error e)
  | (s2, .ok _) =>
      let s3 := handle_inode_delete s2 inode
      (set_todelete s3 inode, .ok ())

/-- Cache.is_link (cache.py lines 210-212): os.path.islink of the resolved
path; a None argument raises a Python TypeError, a missing path reports
false. -/
def is_link (s : Sys) (cache_path : Option CKey) : Except Err Bool :=
  match cache_path with
  | none => .error .typeError
  | some k =>
      match alookup s.disk k with
      | none => .ok false
      | some f =>
          match f.data with
          | .symlink _ => .ok true
          | _ => .ok false

/-- Cache.unlink (cache.py lines 177-190): resolve tolerantly; a symlink
is os.unlinked directly with no lock and no state-machine involvement;
otherwise delegate to _delete_file under the path lock with retry bound
10. -/
def unlink (s : Sys) (fuse_path : String) : Sys × Except Err Unit :=
  let cache_path := _get_path_or_dummy s fuse_path
  match is_link s cache_path with
  | .error e => (s, .error e)
  | .ok true => os_unlink s cache_path
  | .ok false =>
      let s1 := record s (Event.lock fuse_path true true 10)
      _delete_file s1 fuse_path

/-- Cache.getattributes (cache.py lines 200-208): resolve tolerantly;
FuseOSError(ENOENT) when nothing exists; json.load of the contents when
the resolved path is the placeholder form; the on-disk stat otherwise.
The source performs no state change here and takes no lock. -/
def getattributes (s : Sys) (fuse_path : String) : Except Err StatDict :=
  match _get_path_or_dummy s fuse_path with
  | none => .error .fuseENOENT
  | some cache_path =>
      if is_dummy cache_path then
        match alookup s.disk cache_path with
        | none => .error .fileNotFound
        | some f => json_load f
      else
        match get_stat_dictionary s cache_path with
        | none => .error .fileNotFound
        | some d => .ok d

/-- Cache.replace_dummy (cache.py lines 214-217): the public hydration
entry point; takes the path lock on the inode's canonical path with the
PathLock default arguments, then delegates to _replace_dummy. -/
def replace_dummy (s : Sys) (inode : Option Nat) : Sys × Except Err Unit :=
  match (get_paths s inode).head? with
  | none => (s, .error .indexError)
  | some path =>
      let s1 := record s (Event.lockDefault path)
      _replace_dummy s1 inode

/-- Cache.create_dummy (cache.py lines 243-261): dehydration.  Under the
path lock on the canonical path: if the inode is not clean, print and
return without any effect; otherwise capture the on-disk stat dictionary,
os.rename the bare path onto the placeholder path, serialize the stat
dictionary into the placeholder through a writer that does not update
times, and mark the inode remote. -/
def create_dummy (s : Sys) (inode : Option Nat) : Sys × Except Err Unit :=
  match (get_paths s inode).head? with
  | none => (s, .error .indexError)
  | some path =>
      let s1 := record s (Event.lockDefault path)
      if is_clean s1 inode then
        let cache_path := to_cache_path path
        match get_stat_dictionary s1 cache_path with
        | none => (s1, .error .fileNotFound)
        | some stat_dict =>
            let dummy_path := add_dummy_ending cache_path
            match os_rename s1 cache_path dummy_path with
            | (s2, .error e) => (s2, .error e)
            | (s2, .ok _) =>
                match alookup s2.disk dummy_path with
                | none => (s2, .error .fileNotFound)
                | some f =>
                    let f' : File := { f with data := .statJson stat_dict }
                    let s3 := record { s2 with disk := aset s2.disk dummy_path f' }
                        (Event.fsWrite dummy_path)
                    (set_remote s3 inode, .ok ())
      else (s1, .ok ())

/-- Cache.rename (cache.py lines 116-153), tail portion: os.rename of the
two bare cache paths followed by inode_store.rename_paths. -/
def rename_tail (s : Sys) (old_path new_path : String) : Sys × Except Err Unit :=
  match os_rename s (to_cache_path old_path) (to_cache_path new_path) with
  | (s1, .error e) => (s1, .error e)
  | (s1, .ok _) => (rename_paths s1 old_path new_path, .ok ())

/-- Cache.rename (cache.py lines 116-153): under the old path's lock, if
an inode is registered at the new path then delete it first (as a file
under the new path's lock when the state store knows it, as a directory
through rmdir otherwise), then os.rename the bare cache paths and re-key
the registry. -/
def rename (s : Sys) (old_path new_path : String) : Sys × Except Err Unit :=
  let s0 := record s (Event.lock old_path true true 100)
  match get_inode s0 new_path with
  | some j =>
      if state_exists s0 (some j) then
        let s1 := record s0 (Event.lock new_path true true 100)
        match _delete_file s1 new_path with
        | (s2, .error e) => (s2, .error e)
        | (s2, .ok _) => rename_tail s2 old_path new_path
      else
        match rmdir s0 new_path with
        | (s2, .error e) => (s2, .error e)
        | (s2, .ok _) => rename_tail s2 old_path new_path
  | none => rename_tail s0 old_path new_path

end Cache

/-- The Cache operations quantified over by the invariant claims: every
public operation of the adapter boundary that can run to completion
against the modelled state (list is read-only and has no effect on any
store), plus the two worker-driven conversions. -/
inductive Op
  | open' (path : String) (flags : Flags)
  | read (path : String) (size offset fh : Nat)
  | write (path : String) (data : String) (offset fh : Nat)
  | truncate (path : String) (length : Nat)
  | create (path : String) (mode : Int)
  | rename (old_path new_path : String)
  | mkdir (path : String) (mode : Int)
  | rmdir (path : String)
  | unlink (path : String)
  | getattributes (path : String)
  | create_dummy (inode : Option Nat)
  | replace_dummy (inode : Option Nat)

/-- Run an operation, discarding its return value but keeping its effect
on the state and whether it raised. -/
def runOp (s : Sys) : Op → Sys × Except Err Unit
  | .open' p fl => let r := Cache.open' s p fl; (r.1, r.2.map fun _ => ())
  | .read p sz off fh => let r := Cache.read s p sz off fh; (r.1, r.2.map fun _ => ())
  | .write p d off fh => let r := Cache.write s p d off fh; (r.1, r.2.map fun _ => ())
  | .truncate p n => Cache.truncate s p n
  | .create p m => let r := Cache.create s p m; (r.1, r.2.map fun _ => ())
  | .rename o n => Cache.rename s o n
  | .mkdir p m => Cache.mkdir s p m
  | .rmdir p => Cache.rmdir s p
  | .unlink p => Cache.unlink s p
  | .getattributes p => (s, (Cache.getattributes s p).map fun _ => ())
  | .create_dummy i => Cache.create_dummy s i
  | .replace_dummy i => Cache.replace_dummy s i

/-- Whether the bare cache path of a logical path exists on disk. -/
def bareEx (disk : List (CKey × File)) (p : String) : Bool :=
  (alookup disk (to_cache_path p)).isSome

/-- Whether the placeholder path of a logical path exists on disk. -/
def dummyEx (disk : List (CKey × File)) (p : String) : Bool :=
  (alookup disk (add_dummy_ending (to_cache_path p))).isSome

/-- The on-disk form demanded by a state tag (spec invariants 1 and 2):
remote means placeholder only, dirty and clean-local mean bare only,
to-delete means neither. -/
def formOK (disk : List (CKey × File)) (p : String) : Tag → Bool
  | .remote => dummyEx disk p && !bareEx disk p
  | .dirty => bareEx disk p && !dummyEx disk p
  | .cleanLocal => bareEx disk p && !dummyEx disk p
  | .toDelete => !bareEx disk p && !dummyEx disk p

/-- One registry entry satisfies the tag/on-disk matching: if the entry's
inode carries a state tag, the on-disk form at the entry's path matches
it.  Entries without a tag are directories, which have no content state. -/
def entryOK (disk : List (CKey × File)) (states : List (Option Nat × Tag))
    (e : String × Nat) : Bool :=
  match alookup states (some e.2) with
  | none => true
  | some t => formOK disk e.1 t

/-- The state-store/on-disk matching invariant over every logical file
known to the inode registry, as a function of the three stores it reads. -/
def InvB (disk : List (CKey × File)) (registry : List (String × Nat))
    (states : List (Option Nat × Tag)) : Bool :=
  registry.all (entryOK disk states)

/-- The matching invariant of claim C1 as a proposition on the state. -/
def StoreInv (s : Sys) : Prop :=
  InvB s.disk s.registry s.states = true

/-- Registry well-formedness: no logical path is registered twice, no
inode identifier is shared between two registrations (the Cache never
creates aliases), every registered identifier is below the allocator
cursor so that freshly created identifiers are really fresh, and the
state store carries no tag for identifiers at or above the cursor. -/
def RegWF (s : Sys) : Prop :=
  (s.registry.map Prod.fst).Nodup ∧ (s.registry.map Prod.snd).Nodup ∧
    (∀ e ∈ s.registry, e.2 < s.nextInode) ∧
    s.states.all (fun e =>
      match e.1 with
      | none => true
      | some j => decide (j < s.nextInode)) = true

/-- Operation preconditions under which the matching invariant is
preserved: open is a plain open (the kernel reserves creation for create);
write goes through a descriptor bound to the bare cache path of its
argument and no placeholder coexists with it; create and mkdir are invoked
on unregistered paths, create with no leftover placeholder; rename's
destination carries a placeholder only when it is a registered file;
unlink's target resolves to a symlink only when the path carries no
content state.  The remaining operations need no precondition. -/
def precondB (s : Sys) : Op → Bool
  | .open' _ fl => !fl.creat
  | .read _ _ _ _ => true
  | .write p _ _ fh =>
      (alookup s.fds fh == some (to_cache_path p)) && !dummyEx s.disk p
  | .truncate _ _ => true
  | .create p _ => (alookup s.registry p).isNone && !dummyEx s.disk p
  | .rename _ new_path =>
      match alookup s.registry new_path with
      | some j => (alookup s.states (some j)).isSome || !dummyEx s.disk new_path
      | none => !dummyEx s.disk new_path
  | .mkdir p _ => (alookup s.registry p).isNone
  | .rmdir _ => true
  | .unlink p =>
      match Cache._get_path_or_dummy s p with
      | none => true
      | some k =>
          match alookup s.disk k with
          | none => true
          | some f =>
              match f.data with
              | .symlink _ =>
                  match alookup s.registry p with
                  | none => true
                  | some i => (alookup s.states (some i)).isNone
              | _ => true
  | .getattributes _ => true
  | .create_dummy _ => true
  | .replace_dummy _ => true

/-- Precondition of an operation as a proposition. -/
def precond (s : Sys) (op : Op) : Prop := precondB s op = true

/-- Lock-acquisition events. -/
def isLockEvent : Event → Bool
  | .lock _ _ _ _ => true
  | .lockDefault _ => true
  | _ => false

/-- Ranker-notification events. -/
def isRankerEvent : Event → Bool
  | .rankerAccess _ => true
  | .rankerDelete _ => true
  | _ => false

/-- Remote-download events. -/
def isDownloadEvent : Event → Bool
  | .apiDownload _ => true
  | _ => false

/-- The lock acquisitions recorded in a trace. -/
def lockEvents (l : List Event) : List Event := l.filter isLockEvent

/-- The ranker notifications recorded in a trace. -/
def rankerEvents (l : List Event) : List Event := l.filter isRankerEvent

/-- Events that are neither lock acquisitions nor ranker notifications
(os effects and downloads). -/
def isPlainEvent (e : Event) : Bool := !isLockEvent e && !isRankerEvent e

/-- Initial state of the C2 scenario: /b registered under inode 1 and
remote, its placeholder holding the stat dictionary of the scenario, the
remote returning the bytes xyz for inode 1. -/
def c2pre : Sys :=
  { disk := [(add_dummy_ending (to_cache_path "/b"),
              ⟨.statJson ⟨1000, 2000, 3, 420, 7, 8⟩, 500, 600, 999, 7, 7⟩)],
    registry := [("/b", 1)], nextInode := 2,
    states := [(some 1, .remote)], fds := [], nextFd := 1,
    download := fun i => if i = 1 then some "xyz" else none,
    now := 5555, trace := [] }

/-- Initial state of the C3 scenario: as the C2 scenario but the remote
raises a connection error on every download. -/
def c3pre : Sys :=
  { disk := [(add_dummy_ending (to_cache_path "/b"),
              ⟨.statJson ⟨1000, 2000, 3, 420, 7, 8⟩, 500, 600, 999, 7, 7⟩)],
    registry := [("/b", 1)], nextInode := 2,
    states := [(some 1, .remote)], fds := [], nextFd := 1,
    download := fun _ => none, now := 5555, trace := [] }

/-- A state satisfying the matching invariant on which create breaks it:
/a is registered, remote, and present as a placeholder only; calling
create on /a completes and leaves both on-disk forms with a dirty tag. -/
def c1pre : Sys :=
  { disk := [(add_dummy_ending (to_cache_path "/a"),
              ⟨.statJson ⟨1, 2, 3, 420, 0, 0⟩, 1, 2, 420, 0, 0⟩)],
    registry := [("/a", 1)], nextInode := 2,
    states := [(some 1, .remote)], fds := [], nextFd := 1,
    download := fun _ => none, now := 10, trace := [] }

/-- A well-formed state used to witness the amended invariant
preservation: /a registered, dirty, bare form on disk. -/
def c1w : Sys :=
  { disk := [(to_cache_path "/a", ⟨.bytes "x", 1, 2, 420, 0, 0⟩)],
    registry := [("/a", 1)], nextInode := 2,
    states := [(some 1, .dirty)], fds := [], nextFd := 1,
    download := fun _ => none, now := 10, trace := [] }

/-- State for the C4 counterexample, first part: /b remote with a
downloadable placeholder, so open completes through hydration. -/
def c4pre : Sys :=
  { disk := [(add_dummy_ending (to_cache_path "/b"),
              ⟨.statJson ⟨1000, 2000, 3, 420, 7, 8⟩, 500, 600, 999, 7, 7⟩)],
    registry := [("/b", 1)], nextInode := 2,
    states := [(some 1, .remote)], fds := [], nextFd := 1,
    download := fun i => if i = 1 then some "xyz" else none,
    now := 5555, trace := [] }

/-- State for the C4 counterexample, second part: /a resident and dirty
with descriptor 3 open on its bare form, so write completes. -/
def c4pre2 : Sys :=
  { disk := [(to_cache_path "/a", ⟨.bytes "hello", 1, 2, 420, 0, 0⟩)],
    registry := [("/a", 1)], nextInode := 2,
    states := [(some 1, .dirty)], fds := [(3, to_cache_path "/a")], nextFd := 4,
    download := fun _ => none, now := 10, trace := [] }

/-- State for the C5 counterexample: create on the unregistered path /c
completes without acquiring any path lock. -/
def c5pre : Sys :=
  { disk := [], registry := [], nextInode := 1,
    states := [], fds := [], nextFd := 1,
    download := fun _ => none, now := 10, trace := [] }

/-- State witnessing C6: /a registered under inode 1, clean-local, bare
form resident, the remote returning its bytes. -/
def c6pre : Sys :=
  { disk := [(to_cache_path "/a", ⟨.bytes "hello", 10, 20, 420, 1000, 1001⟩)],
    registry := [("/a", 1)], nextInode := 2,
    states := [(some 1, .cleanLocal)], fds := [], nextFd := 1,
    download := fun i => if i = 1 then some "hello" else none,
    now := 7777, trace := [] }

/-- State for the C7 counterexample: both forms of /a exist and carry
different stats; getattributes prefers the bare form's on-disk stat. -/
def c7pre : Sys :=
  { disk := [(to_cache_path "/a", ⟨.bytes "hi", 1, 2, 3, 4, 5⟩),
             (add_dummy_ending (to_cache_path "/a"),
              ⟨.statJson ⟨91, 92, 93, 94, 95, 96⟩, 6, 7, 8, 9, 10⟩)],
    registry := [("/a", 1)], nextInode := 2,
    states := [(some 1, .dirty)], fds := [], nextFd := 1,
    download := fun _ => none, now := 10, trace := [] }

/-- State witnessing C7: /a resident only, /b a placeholder only. -/
def c7w : Sys :=
  { disk := [(to_cache_path "/a", ⟨.bytes "hi", 1, 2, 3, 4, 5⟩),
             (add_dummy_ending (to_cache_path "/b"),
              ⟨.statJson ⟨91, 92, 93, 94, 95, 96⟩, 6, 7, 8, 9, 10⟩)],
    registry := [("/a", 1), ("/b", 2)], nextInode := 3,
    states := [(some 1, .dirty), (some 2, .remote)], fds := [], nextFd := 1,
    download := fun _ => none, now := 10, trace := [] }

/-- State witnessing C8: /a registered under inode 1 with a dirty tag. -/
def c8pre : Sys :=
  { disk := [(to_cache_path "/a", ⟨.bytes "w", 1, 2, 420, 0, 0⟩)],
    registry := [("/a", 1)], nextInode := 2,
    states := [(some 1, .dirty)], fds := [], nextFd := 1,
    download := fun _ => none, now := 10, trace := [] }

/-- State witnessing C9: /a registered and remote (placeholder only),
/b unregistered. -/
def c9pre : Sys :=
  { disk := [(add_dummy_ending (to_cache_path "/a"),
              ⟨.statJson ⟨1, 2, 3, 420, 0, 0⟩, 1, 2, 420, 0, 0⟩)],
    registry := [("/a", 2)], nextInode := 3,
    states := [(some 2, .remote)], fds := [], nextFd := 1,
    download := fun _ => none, now := 10, trace := [] }

/-- State witnessing C10: /a has neither on-disk form; an unrelated
registered file shows the registry and state store stay untouched. -/
def c10pre : Sys :=
  { disk := [(to_cache_path "/z", ⟨.bytes "q", 1, 2, 420, 0, 0⟩)],
    registry := [("/z", 5)], nextInode := 6,
    states := [(some 5, .dirty)], fds := [], nextFd := 1,
    download := fun _ => none, now := 10, trace := [] }
/-- State witnessing the amended C5 lock discipline: /w is a resident
dirty file, so unlink goes through the locked _delete_file branch. -/
def c5w : Sys :=
  { disk := [(to_cache_path "/w", ⟨.bytes "w", 1, 2, 420, 0, 0⟩)],
    registry := [("/w", 1)], nextInode := 2,
    states := [(some 1, .dirty)], fds := [], nextFd := 1,
    download := fun _ => none, now := 10, trace := [] }

/-- A transition appends only plain events (neither lock acquisitions nor
ranker notifications) to the trace. -/
def plainExt (s s' : Sys) : Prop :=
  ∃ d, s'.trace = s.trace ++ d ∧ d.all isPlainEvent = true

/-- A transition appends no lock-acquisition events to the trace. -/
def noLockExt (s s' : Sys) : Prop :=
  ∃ d, s'.trace = s.trace ++ d ∧ d.all (fun e => !isLockEvent e) = true

theorem alookup_aset_self [DecidableEq κ] (l : List (κ × α)) (k : κ) (v : α) :
    alookup (aset l k v) k = some v := by
  induction l with
  | nil => simp [aset, alookup]
  | cons e l ih =>
      by_cases h : k = e.1
      · simp [aset, h, alookup]
      · simp [aset, h, alookup, ih]

theorem alookup_aset_ne [DecidableEq κ] (l : List (κ × α)) (k k' : κ) (v : α)
    (h : k' ≠ k) : alookup (aset l k v) k' = alookup l k' := by
  induction l with
  | nil => simp [aset, alookup, h]
  | cons e l ih =>
      by_cases h0 : k = e.1
      · subst h0
        simp [aset, alookup, h, if_neg h]
      · by_cases h1 : k' = e.1
        · simp [aset, h0, alookup, h1]
        · simp [aset, h0, alookup, h1, ih]

theorem alookup_aremove_self [DecidableEq κ] (l : List (κ × α)) (k : κ) :
    alookup (aremove l k) k = none := by
  induction l with
  | nil => simp [aremove, alookup]
  | cons e l ih =>
      by_cases h : k = e.1
      · subst h
        simp [aremove, ih]
      · simp [aremove, h, alookup, ih]

theorem alookup_aremove_ne [DecidableEq κ] (l : List (κ × α)) (k k' : κ)
    (h : k' ≠ k) : alookup (aremove l k) k' = alookup l k' := by
  induction l with
  | nil => simp [aremove]
  | cons e l ih =>
      by_cases h0 : k = e.1
      · subst h0
        simp [aremove, alookup, if_neg h, ih]
      · by_cases h1 : k' = e.1
        · simp [aremove, h0, alookup, h1, ih]
        · simp [aremove, h0, alookup, h1, ih]

theorem alookup_append [DecidableEq κ] (l l' : List (κ × α)) (k : κ) :
    alookup (l ++ l') k = ((alookup l k).orElse fun _ => alookup l' k) := by
  induction l with
  | nil => simp [alookup]
  | cons e l ih =>
      by_cases h : k = e.1
      · simp [alookup, h]
      · simp [alookup, h, ih]

theorem alookup_eq_none_of_not_mem_keys [DecidableEq κ] (l : List (κ × α)) (k : κ)
    (h : k ∉ l.map Prod.fst) : alookup l k = none := by
  induction l with
  | nil => rfl
  | cons e l ih =>
      simp only [List.map_cons, List.mem_cons] at h
      push_neg at h
      simp [alookup, h.1, ih h.2]

theorem mem_of_alookup_eq_some [DecidableEq κ] (l : List (κ × α)) (k : κ) (v : α)
    (h : alookup l k = some v) : (k, v) ∈ l := by
  induction l with
  | nil => simp [alookup] at h
  | cons e l ih =>
      by_cases h0 : k = e.1
      · subst h0
        simp [alookup] at h
        subst h
        exact List.mem_cons_self _ _
      · simp [alookup, h0] at h
        exact List.mem_cons_of_mem _ (ih h)


@[simp] theorem record_disk (s : Sys) (e : Event) : (record s e).disk = s.disk := rfl

@[simp] theorem record_registry (s : Sys) (e : Event) : (record s e).registry = s.registry := rfl

@[simp] theorem record_nextInode (s : Sys) (e : Event) : (record s e).nextInode = s.nextInode := rfl

@[simp] theorem record_states (s : Sys) (e : Event) : (record s e).states = s.states := rfl

@[simp] theorem record_fds (s : Sys) (e : Event) : (record s e).fds = s.fds := rfl

@[simp] theorem record_nextFd (s : Sys) (e : Event) : (record s e).nextFd = s.nextFd := rfl

@[simp] theorem record_download (s : Sys) (e : Event) : (record s e).download = s.download := rfl

@[simp] theorem record_now (s : Sys) (e : Event) : (record s e).now = s.now := rfl

@[simp] theorem record_trace (s : Sys) (e : Event) : (record s e).trace = s.trace ++ [e] := rfl

@[simp] theorem set_dirty_disk (s : Sys) (oi : Option Nat) : (set_dirty s oi).disk = s.disk := rfl

@[simp] theorem set_dirty_registry (s : Sys) (oi : Option Nat) : (set_dirty s oi).registry = s.registry := rfl

@[simp] theorem set_dirty_states (s : Sys) (oi : Option Nat) : (set_dirty s oi).states = aset s.states oi Tag.dirty := rfl

@[simp] theorem set_dirty_trace (s : Sys) (oi : Option Nat) : (set_dirty s oi).trace = s.trace := rfl

@[simp] theorem set_dirty_nextInode (s : Sys) (oi : Option Nat) : (set_dirty s oi).nextInode = s.nextInode := rfl

@[simp] theorem set_dirty_fds (s : Sys) (oi : Option Nat) : (set_dirty s oi).fds = s.fds := rfl

@[simp] theorem set_remote_disk (s : Sys) (oi : Option Nat) : (set_remote s oi).disk = s.disk := rfl

@[simp] theorem set_remote_registry (s : Sys) (oi : Option Nat) : (set_remote s oi).registry = s.registry := rfl

@[simp] theorem set_remote_states (s : Sys) (oi : Option Nat) : (set_remote s oi).states = aset s.states oi Tag.remote := rfl

@[simp] theorem set_remote_trace (s : Sys) (oi : Option Nat) : (set_remote s oi).trace = s.trace := rfl

@[simp] theorem set_remote_nextInode (s : Sys) (oi : Option Nat) : (set_remote s oi).nextInode = s.nextInode := rfl

@[simp] theorem set_downloaded_disk (s : Sys) (oi : Option Nat) : (set_downloaded s oi).disk = s.disk := rfl

@[simp] theorem set_downloaded_registry (s : Sys) (oi : Option Nat) : (set_downloaded s oi).registry = s.registry := rfl

@[simp] theorem set_downloaded_states (s : Sys) (oi : Option Nat) : (set_downloaded s oi).states = aset s.states oi Tag.cleanLocal := rfl

@[simp] theorem set_downloaded_trace (s : Sys) (oi : Option Nat) : (set_downloaded s oi).trace = s.trace := rfl

@[simp] theorem set_downloaded_nextInode (s : Sys) (oi : Option Nat) : (set_downloaded s oi).nextInode = s.nextInode := rfl

@[simp] theorem set_todelete_disk (s : Sys) (oi : Option Nat) : (set_todelete s oi).disk = s.disk := rfl

@[simp] theorem set_todelete_registry (s : Sys) (oi : Option Nat) : (set_todelete s oi).registry = s.registry := rfl

@[simp] theorem set_todelete_states (s : Sys) (oi : Option Nat) : (set_todelete s oi).states = aset s.states oi Tag.toDelete := rfl

@[simp] theorem set_todelete_trace (s : Sys) (oi : Option Nat) : (set_todelete s oi).trace = s.trace := rfl

@[simp] theorem set_todelete_nextInode (s : Sys) (oi : Option Nat) : (set_todelete s oi).nextInode = s.nextInode := rfl

@[simp] theorem delete_path_disk (s : Sys) (p : String) : (delete_path s p).disk = s.disk := rfl

@[simp] theorem delete_path_registry (s : Sys) (p : String) : (delete_path s p).registry = aremove s.registry p := rfl

@[simp] theorem delete_path_states (s : Sys) (p : String) : (delete_path s p).states = s.states := rfl

@[simp] theorem delete_path_trace (s : Sys) (p : String) : (delete_path s p).trace = s.trace := rfl

@[simp] theorem delete_path_nextInode (s : Sys) (p : String) : (delete_path s p).nextInode = s.nextInode := rfl

@[simp] theorem create_path_disk (s : Sys) (p : String) : (create_path s p).disk = s.disk := rfl

@[simp] theorem create_path_registry (s : Sys) (p : String) : (create_path s p).registry = s.registry ++ [(p, s.nextInode)] := rfl

@[simp] theorem create_path_states (s : Sys) (p : String) : (create_path s p).states = s.states := rfl

@[simp] theorem create_path_trace (s : Sys) (p : String) : (create_path s p).trace = s.trace := rfl

@[simp] theorem create_path_nextInode (s : Sys) (p : String) : (create_path s p).nextInode = s.nextInode + 1 := rfl

@[simp] theorem rename_paths_disk (s : Sys) (o n : String) : (rename_paths s o n).disk = s.disk := rfl

@[simp] theorem rename_paths_states (s : Sys) (o n : String) : (rename_paths s o n).states = s.states := rfl

@[simp] theorem rename_paths_trace (s : Sys) (o n : String) : (rename_paths s o n).trace = s.trace := rfl

@[simp] theorem rename_paths_nextInode (s : Sys) (o n : String) : (rename_paths s o n).nextInode = s.nextInode := rfl

@[simp] theorem handle_inode_access_eq (s : Sys) (oi : Option Nat) :
    handle_inode_access s oi = record s (Event.rankerAccess oi) := rfl

@[simp] theorem handle_inode_delete_eq (s : Sys) (oi : Option Nat) :
    handle_inode_delete s oi = record s (Event.rankerDelete oi) := rfl

theorem is_clean_record (s : Sys) (e : Event) (oi : Option Nat) :
    is_clean (record s e) oi = is_clean s oi := rfl

theorem is_remote_record (s : Sys) (e : Event) (oi : Option Nat) :
    is_remote (record s e) oi = is_remote s oi := rfl

theorem get_paths_record (s : Sys) (e : Event) (oi : Option Nat) :
    get_paths (record s e) oi = get_paths s oi := rfl

theorem get_inode_record (s : Sys) (e : Event) (p : String) :
    get_inode (record s e) p = get_inode s p := rfl

theorem get_stat_dictionary_record (s : Sys) (e : Event) (k : CKey) :
    get_stat_dictionary (record s e) k = get_stat_dictionary s k := rfl

/-- C10: unlink called on a path for which neither the bare cache path nor
the placeholder exists raises the Python TypeError coming from passing
None to the symlink check, not the taxonomized not-found error, and the
whole state — in particular the inode registry and the state store — is
left untouched. -/
theorem unlink_missing_raises_typeerror (s : Sys) (p : String)
    (hb : alookup s.disk (to_cache_path p) = none)
    (hd : alookup s.disk (add_dummy_ending (to_cache_path p)) = none) :
    Cache.unlink s p = (s, .error Err.typeError) := by
  simp [Cache.unlink, Cache._get_path_or_dummy, os_path_exists, hb, hd,
        Cache.is_link]

/-- Witness for C10 at a concrete state with an unrelated registered
file. -/
theorem unlink_missing_raises_typeerror_witness :
    Cache.unlink c10pre "/a" = (c10pre, .error Err.typeError) :=
  unlink_missing_raises_typeerror c10pre "/a" (by decide) (by decide)

/-- C8: create_dummy invoked on a registered inode whose state is not
clean-local returns without raising and is a no-op: the disk, the state
store and the inode registry are unchanged. -/
theorem create_dummy_not_clean_noop (s : Sys) (oi : Option Nat) (p : String)
    (hp : (get_paths s oi).head? = some p)
    (hnc : is_clean s oi = false) :
    (Cache.create_dummy s oi).2 = .ok () ∧
    (Cache.create_dummy s oi).1.disk = s.disk ∧
    (Cache.create_dummy s oi).1.states = s.states ∧
    (Cache.create_dummy s oi).1.registry = s.registry := by
  simp [Cache.create_dummy, hp, is_clean_record, hnc]

/-- Witness for C8: create_dummy on the dirty inode 1 of a concrete state
is a completed no-op. -/
theorem create_dummy_not_clean_noop_witness :
    (Cache.create_dummy c8pre (some 1)).2 = .ok () ∧
    (Cache.create_dummy c8pre (some 1)).1.disk = c8pre.disk ∧
    (Cache.create_dummy c8pre (some 1)).1.states = c8pre.states ∧
    (Cache.create_dummy c8pre (some 1)).1.registry = c8pre.registry :=
  create_dummy_not_clean_noop c8pre (some 1) "/a" (by decide) (by decide)

/-- C9: rename applies os.rename to the bare cache paths only: renaming a
file in remote state (placeholder on disk, bare path absent, destination
unregistered) raises the passthrough not-found OS error, and the state —
in particular the placeholder, the registry and the state store — is
unchanged apart from the recorded lock acquisition. -/
theorem rename_remote_source_enoent (s : Sys) (old_path new_path : String)
    (i : Nat)
    (hold : get_inode s old_path = some i)
    (hrem : alookup s.states (some i) = some Tag.remote)
    (hdum : (alookup s.disk (add_dummy_ending (to_cache_path old_path))).isSome)
    (hbare : alookup s.disk (to_cache_path old_path) = none)
    (hnew : get_inode s new_path = none) :
    Cache.rename s old_path new_path =
      (record s (Event.lock old_path true true 100), .error Err.fileNotFound) := by
  have hnew' : alookup s.registry new_path = none := hnew
  simp [Cache.rename, get_inode, record, hnew', Cache.rename_tail, os_rename,
        hbare]

/-- Witness for C9 at a concrete state. -/
theorem rename_remote_source_enoent_witness :
    Cache.rename c9pre "/a" "/b" =
      (record c9pre (Event.lock "/a" true true 100), .error Err.fileNotFound) :=
  rename_remote_source_enoent c9pre "/a" "/b" 2 (by decide) (by decide)
    (by decide) (by decide) (by decide)

/-- C2: opening /b read-only in the scenario state (remote, placeholder
stat atime 1000 / mtime 2000 / size 3, remote bytes xyz) completes; the
bare cache path then holds the bytes xyz with mtime 2000, the placeholder
is gone, and the inode is tagged clean-local. -/
theorem open_remote_scenario :
    (Cache.open' c2pre "/b" O_RDONLY).2 = .ok 1 ∧
    alookup (Cache.open' c2pre "/b" O_RDONLY).1.disk (to_cache_path "/b") =
      some ⟨.bytes "xyz", 1000, 2000, 999, 7, 7⟩ ∧
    alookup (Cache.open' c2pre "/b" O_RDONLY).1.disk
      (add_dummy_ending (to_cache_path "/b")) = none ∧
    alookup (Cache.open' c2pre "/b" O_RDONLY).1.states (some 1) =
      some Tag.cleanLocal :=
  ⟨rfl, rfl, rfl, rfl⟩

theorem is_dummy_to_cache_path (p : String) : is_dummy (to_cache_path p) = false := rfl

theorem is_dummy_add_dummy_ending (k : CKey) : is_dummy (add_dummy_ending k) = true := rfl

theorem bare_ne_dummy (p : String) (k : CKey) :
    to_cache_path p ≠ add_dummy_ending k := by
  simp [to_cache_path, add_dummy_ending]

theorem dummy_ne_bare (k : CKey) (p : String) :
    add_dummy_ending k ≠ to_cache_path p := by
  simp [to_cache_path, add_dummy_ending]

theorem to_cache_path_inj (p q : String) :
    to_cache_path p = to_cache_path q ↔ p = q := by
  simp [to_cache_path]

theorem dummy_to_cache_path_inj (p q : String) :
    add_dummy_ending (to_cache_path p) = add_dummy_ending (to_cache_path q) ↔ p = q := by
  simp [to_cache_path, add_dummy_ending]

/-- C7 (amended): getattributes fails with not-found exactly when neither
on-disk form exists; when the bare cache path exists, its on-disk stat is
returned (the bare form takes precedence even if a placeholder coexists);
otherwise, when only the placeholder exists and holds a serialized stat
dictionary, that dictionary — the remote's metadata — is returned. -/
theorem getattributes_spec (s : Sys) (p : String) :
    (Cache.getattributes s p = .error Err.fuseENOENT ↔
      alookup s.disk (to_cache_path p) = none ∧
      alookup s.disk (add_dummy_ending (to_cache_path p)) = none) ∧
    (∀ f, alookup s.disk (to_cache_path p) = some f →
      Cache.getattributes s p =
        .ok ⟨f.atime, f.mtime, dataSize f.data, f.mode, f.uid, f.gid⟩) ∧
    (∀ f d, alookup s.disk (to_cache_path p) = none →
      alookup s.disk (add_dummy_ending (to_cache_path p)) = some f →
      f.data = .statJson d →
      Cache.getattributes s p = .ok d) := by
  rcases hbb : alookup s.disk (to_cache_path p) with _ | f
  · rcases hdd : alookup s.disk (add_dummy_ending (to_cache_path p)) with _ | g
    · refine ⟨?_, ?_, ?_⟩
      · simp [Cache.getattributes, Cache._get_path_or_dummy, os_path_exists,
              hbb, hdd]
      · intro f hf
        simp [hbb] at hf
      · intro f d _ hf
        simp [hdd] at hf
    · refine ⟨?_, ?_, ?_⟩
      · constructor
        · intro h
          exfalso
          simp [Cache.getattributes, Cache._get_path_or_dummy, os_path_exists,
                hbb, hdd, is_dummy_add_dummy_ending, json_load] at h
          rcases hgd : g.data with c | d | _ | t <;> simp [hgd] at h
        · intro h
          simp [hdd] at h
      · intro f hf
        simp [hbb] at hf
      · intro f d _ hf hfd
        simp [hdd] at hf
        subst hf
        simp [Cache.getattributes, Cache._get_path_or_dummy, os_path_exists,
              hbb, hdd, is_dummy_add_dummy_ending, json_load, hfd]
  · refine ⟨?_, ?_, ?_⟩
    · constructor
      · intro h
        exfalso
        simp [Cache.getattributes, Cache._get_path_or_dummy, os_path_exists,
              hbb, is_dummy_to_cache_path, get_stat_dictionary] at h
      · intro h
        exact absurd h.1 (by simp)
    · intro f0 hf0
      have hf : f0 = f := (Option.some.inj hf0).symm
      subst hf
      simp [Cache.getattributes, Cache._get_path_or_dummy, os_path_exists,
            hbb, is_dummy_to_cache_path, get_stat_dictionary]
    · intro f0 d hf0
      simp [hbb] at hf0

/-- Counterexample to C7 as stated: both forms of /a exist, the
placeholder holds one stat dictionary, yet getattributes returns the bare
form's differing on-disk stat rather than deserializing the placeholder. -/
theorem getattributes_prefers_bare_cex :
    (alookup c7pre.disk (add_dummy_ending (to_cache_path "/a"))).map File.data =
      some (.statJson ⟨91, 92, 93, 94, 95, 96⟩) ∧
    Cache.getattributes c7pre "/a" = .ok ⟨1, 2, 2, 3, 4, 5⟩ ∧
    (⟨1, 2, 2, 3, 4, 5⟩ : StatDict) ≠ ⟨91, 92, 93, 94, 95, 96⟩ :=
  ⟨rfl, rfl, by decide⟩

/-- Witness for the amended C7 at concrete states: a resident file, a
placeholder-only file, and a missing file. -/
theorem getattributes_spec_witness :
    Cache.getattributes c7w "/a" = .ok ⟨1, 2, 2, 3, 4, 5⟩ ∧
    Cache.getattributes c7w "/b" = .ok ⟨91, 92, 93, 94, 95, 96⟩ ∧
    Cache.getattributes c7w "/c" = .error Err.fuseENOENT :=
  ⟨(getattributes_spec c7w "/a").2.1 ⟨.bytes "hi", 1, 2, 3, 4, 5⟩ (by decide),
   (getattributes_spec c7w "/b").2.2 ⟨.statJson ⟨91, 92, 93, 94, 95, 96⟩, 6, 7, 8, 9, 10⟩
     ⟨91, 92, 93, 94, 95, 96⟩ (by decide) (by decide) (by decide),
   (getattributes_spec c7w "/c").1.mpr ⟨by decide, by decide⟩⟩

/-- C3 (amended): when the remote raises a connection error during
hydration, open fails with network-unreachable; the bare cache-path file
is left on disk, emptied by the truncating re-open, the placeholder is
gone and the state-store tag is not reverted (still remote).  Because the
placeholder no longer exists, a subsequent open does not retry hydration:
it completes against the leftover empty file, and its entire activity is
one lock acquisition and one plain os.open — no download, no rename. -/
theorem open_download_failure (s : Sys) (p : String) (i : Nat) (fl : Flags)
    (df : File) (d : StatDict)
    (hreg : alookup s.registry p = some i)
    (hcanon : (get_paths s (some i)).head? = some p)
    (hdum : alookup s.disk (add_dummy_ending (to_cache_path p)) = some df)
    (hjson : df.data = .statJson d)
    (hbare : alookup s.disk (to_cache_path p) = none)
    (hdl : s.download i = none) :
    (Cache.open' s p fl).2 = .error Err.fuseENETUNREACH ∧
    alookup (Cache.open' s p fl).1.disk (to_cache_path p) =
      some { df with data := .bytes "", mtime := s.now } ∧
    alookup (Cache.open' s p fl).1.disk (add_dummy_ending (to_cache_path p)) = none ∧
    (Cache.open' s p fl).1.states = s.states ∧
    (Cache.open' (Cache.open' s p fl).1 p O_RDONLY).2.isOk = true ∧
    (Cache.open' (Cache.open' s p fl).1 p O_RDONLY).1.trace =
      (Cache.open' s p fl).1.trace ++
        [Event.lock p true true 100, Event.fsOpen (to_cache_path p)] := by
  have hrun : Cache.open' s p fl =
      (record (record (record { record s (Event.lock p true true 100) with
          disk := aset (aset (aremove s.disk (add_dummy_ending (to_cache_path p)))
              (to_cache_path p) df) (to_cache_path p)
              { df with data := .bytes "", mtime := s.now } }
          (Event.fsRename (add_dummy_ending (to_cache_path p)) (to_cache_path p)))
          (Event.fsTruncate (to_cache_path p)))
          (Event.apiDownload (some i)),
        .error Err.fuseENETUNREACH) := by
    simp only [Cache.open', Cache._get_path, os_path_exists, record_disk, hdum,
      Option.isSome_some, if_true]
    rw [get_inode_record]
    simp only [get_inode, hreg]
    simp only [Cache._replace_dummy, get_paths_record, hcanon]
    simp only [record_disk, hdum, json_load, hjson]
    simp only [os_rename, record_disk, hdum]
    simp only [record_trace, record_disk, alookup_aset_self]
    simp only [Option.bind_eq_bind, Option.some_bind, record_download, hdl]
    rfl
  have h2 : alookup (Cache.open' s p fl).1.disk (to_cache_path p) =
      some { df with data := .bytes "", mtime := s.now } := by
    rw [hrun]
    simp only [record_disk]
    exact alookup_aset_self _ _ _
  have h3 : alookup (Cache.open' s p fl).1.disk
      (add_dummy_ending (to_cache_path p)) = none := by
    rw [hrun]
    simp only [record_disk]
    rw [alookup_aset_ne _ _ _ _ (dummy_ne_bare _ p),
        alookup_aset_ne _ _ _ _ (dummy_ne_bare _ p),
        alookup_aremove_self]
  refine ⟨by rw [hrun], h2, h3, by rw [hrun]; rfl, ?_, ?_⟩
  · set s3 := (Cache.open' s p fl).1 with hs3
    simp only [Cache.open', Cache._get_path, os_path_exists, record_disk, h3,
      Option.isSome_none, Bool.false_eq_true, if_false]
    simp only [os_open, record_disk, h2, O_RDONLY]
    rfl
  · set s3 := (Cache.open' s p fl).1 with hs3
    simp only [Cache.open', Cache._get_path, os_path_exists, record_disk, h3,
      Option.isSome_none, Bool.false_eq_true, if_false]
    simp only [os_open, record_disk, h2, O_RDONLY, record_trace,
      List.append_assoc]
    rfl

/-- Counterexample to C3 as stated: in the scenario state the first open
fails with network-unreachable, but a subsequent open does not retry
hydration — it completes against the leftover empty file, and its entire
activity is one lock acquisition and one plain os.open, with no download
and no placeholder rename. -/
theorem open_no_retry_cex :
    (Cache.open' c3pre "/b" O_RDONLY).2 = .error Err.fuseENETUNREACH ∧
    (Cache.open' (Cache.open' c3pre "/b" O_RDONLY).1 "/b" O_RDONLY).2 = .ok 1 ∧
    (Cache.open' (Cache.open' c3pre "/b" O_RDONLY).1 "/b" O_RDONLY).1.trace =
      (Cache.open' c3pre "/b" O_RDONLY).1.trace ++
        [Event.lock "/b" true true 100, Event.fsOpen (to_cache_path "/b")] :=
  ⟨rfl, rfl, rfl⟩

/-- Witness for the amended C3 at the concrete scenario state. -/
theorem open_download_failure_witness :
    (Cache.open' c3pre "/b" O_RDONLY).2 = .error Err.fuseENETUNREACH ∧
    alookup (Cache.open' c3pre "/b" O_RDONLY).1.disk (to_cache_path "/b") =
      some { data := FileData.bytes "", atime := 500, mtime := 5555,
             mode := 999, uid := 7, gid := 7 } ∧
    alookup (Cache.open' c3pre "/b" O_RDONLY).1.disk
      (add_dummy_ending (to_cache_path "/b")) = none ∧
    (Cache.open' c3pre "/b" O_RDONLY).1.states = c3pre.states ∧
    (Cache.open' (Cache.open' c3pre "/b" O_RDONLY).1 "/b" O_RDONLY).2.isOk = true ∧
    (Cache.open' (Cache.open' c3pre "/b" O_RDONLY).1 "/b" O_RDONLY).1.trace =
      (Cache.open' c3pre "/b" O_RDONLY).1.trace ++
        [Event.lock "/b" true true 100, Event.fsOpen (to_cache_path "/b")] :=
  open_download_failure c3pre "/b" 1 O_RDONLY
    ⟨.statJson ⟨1000, 2000, 3, 420, 7, 8⟩, 500, 600, 999, 7, 7⟩
    ⟨1000, 2000, 3, 420, 7, 8⟩
    (by decide) (by decide) (by decide) (by decide) (by decide) rfl

theorem aset_aset [DecidableEq κ] (l : List (κ × α)) (k : κ) (v v' : α) :
    aset (aset l k v) k v' = aset l k v' := by
  induction l with
  | nil => simp [aset]
  | cons e l ih =>
      by_cases h : k = e.1
      · simp [aset, h]
      · simp [aset, h, ih]

/-- C6: dehydrating a clean-local file with create_dummy and hydrating it
back with replace_dummy restores the file's mtime and atime to within one
second of the originals (the code restores them exactly, via the stat
dictionary serialized into the placeholder and the final utime), and
preserves mode, uid and gid exactly (via the two metadata-preserving
renames). -/
theorem dummy_roundtrip_preserves_stat (s : Sys) (i : Nat) (p : String)
    (f : File) (content : String)
    (hcanon : (get_paths s (some i)).head? = some p)
    (hclean : alookup s.states (some i) = some Tag.cleanLocal)
    (hbare : alookup s.disk (to_cache_path p) = some f)
    (hdl : s.download i = some content) :
    (Cache.create_dummy s (some i)).2 = .ok () ∧
    (Cache.replace_dummy (Cache.create_dummy s (some i)).1 (some i)).2 = .ok () ∧
    ∃ f2, alookup (Cache.replace_dummy
          (Cache.create_dummy s (some i)).1 (some i)).1.disk
        (to_cache_path p) = some f2 ∧
      (f2.mtime - f.mtime).natAbs ≤ 1 ∧ (f2.atime - f.atime).natAbs ≤ 1 ∧
      f2.mode = f.mode ∧ f2.uid = f.uid ∧ f2.gid = f.gid := by
  have hclean' : is_clean (record s (Event.lockDefault p)) (some i) = true := by
    simp [is_clean, hclean]
  have hr1 : Cache.create_dummy s (some i) =
      (set_remote
        (record
          { record (record s (Event.lockDefault p))
              (Event.fsRename (to_cache_path p)
                (add_dummy_ending (to_cache_path p))) with
            disk := aset
              (aset (aremove s.disk (to_cache_path p))
                (add_dummy_ending (to_cache_path p)) f)
              (add_dummy_ending (to_cache_path p))
              { f with data := FileData.statJson ⟨f.atime, f.mtime, dataSize f.data, f.mode, f.uid, f.gid⟩ } }
          (Event.fsWrite (add_dummy_ending (to_cache_path p))))
        (some i), .ok ()) := by
    simp only [Cache.create_dummy, hcanon, hclean', if_true]
    simp only [get_stat_dictionary, record_disk, hbare, Option.map_some']
    simp only [os_rename, record_disk, hbare]
    simp only [record_disk, alookup_aset_self]
    rfl
  set S1 := (Cache.create_dummy s (some i)).1 with hS1
  have hd1 : alookup S1.disk (add_dummy_ending (to_cache_path p)) =
      some { f with data := FileData.statJson ⟨f.atime, f.mtime, dataSize f.data, f.mode, f.uid, f.gid⟩ } := by
    rw [hS1, hr1]
    simp only [set_remote_disk, record_disk]
    exact alookup_aset_self _ _ _
  have hreg1 : S1.registry = s.registry := by rw [hS1, hr1]; rfl
  have hdl1 : S1.download = s.download := by rw [hS1, hr1]; rfl
  have hcanon1 : (get_paths S1 (some i)).head? = some p := by
    simp only [get_paths] at hcanon ⊢
    rw [hreg1]
    exact hcanon
  refine ⟨by rw [hr1], ?_, ?_⟩
  · simp only [Cache.replace_dummy, hcanon1, Cache._replace_dummy,
      get_paths_record, record_disk, hd1, json_load]
    simp only [os_rename, record_disk, hd1]
    simp only [record_disk, alookup_aset_self]
    simp only [Option.bind_eq_bind, Option.some_bind, record_download, hdl1, hdl]
    simp only [os_utime, record_disk, alookup_aset_self]
  · refine ⟨⟨.bytes content, f.atime, f.mtime, f.mode, f.uid, f.gid⟩, ?_,
      by simp, by simp, rfl, rfl, rfl⟩
    simp only [Cache.replace_dummy, hcanon1, Cache._replace_dummy,
      get_paths_record, record_disk, hd1, json_load]
    simp only [os_rename, record_disk, hd1]
    simp only [record_disk, alookup_aset_self]
    simp only [Option.bind_eq_bind, Option.some_bind, record_download, hdl1, hdl]
    simp only [os_utime, record_disk, alookup_aset_self]
    simp only [set_downloaded_disk, record_disk, alookup_aset_self]

/-- Witness for C6 at a concrete clean-local file. -/
theorem dummy_roundtrip_preserves_stat_witness :
    (Cache.create_dummy c6pre (some 1)).2 = .ok () ∧
    (Cache.replace_dummy (Cache.create_dummy c6pre (some 1)).1 (some 1)).2 = .ok () ∧
    ∃ f2, alookup (Cache.replace_dummy
          (Cache.create_dummy c6pre (some 1)).1 (some 1)).1.disk
        (to_cache_path "/a") = some f2 ∧
      (f2.mtime - 20).natAbs ≤ 1 ∧ (f2.atime - 10).natAbs ≤ 1 ∧
      f2.mode = 420 ∧ f2.uid = 1000 ∧ f2.gid = 1001 :=
  dummy_roundtrip_preserves_stat c6pre 1 "/a"
    ⟨.bytes "hello", 10, 20, 420, 1000, 1001⟩ "hello"
    (by decide) (by decide) (by decide) rfl

theorem plainExt_refl (s : Sys) : plainExt s s := ⟨[], by simp, rfl⟩

theorem plainExt_trans {s s' s'' : Sys} (h : plainExt s s') (h' : plainExt s' s'') :
    plainExt s s'' := by
  obtain ⟨d, hd, ha⟩ := h
  obtain ⟨d', hd', ha'⟩ := h'
  refine ⟨d ++ d', by rw [hd', hd, List.append_assoc], ?_⟩
  simp only [List.all_append, ha, ha', Bool.and_self]

theorem noLockExt_refl (s : Sys) : noLockExt s s := ⟨[], by simp, rfl⟩

theorem noLockExt_trans {s s' s'' : Sys} (h : noLockExt s s') (h' : noLockExt s' s'') :
    noLockExt s s'' := by
  obtain ⟨d, hd, ha⟩ := h
  obtain ⟨d', hd', ha'⟩ := h'
  refine ⟨d ++ d', by rw [hd', hd, List.append_assoc], ?_⟩
  simp only [List.all_append, ha, ha', Bool.and_self]

theorem noLockExt_of_plainExt {s s' : Sys} (h : plainExt s s') : noLockExt s s' := by
  obtain ⟨d, hd, ha⟩ := h
  refine ⟨d, hd, ?_⟩
  simp only [List.all_eq_true] at ha ⊢
  intro e he
  have := ha e he
  simp only [isPlainEvent, Bool.and_eq_true, Bool.not_eq_true'] at this
  simp [this.1]

theorem lockEvents_of_noLockExt {s s' : Sys} (h : noLockExt s s') :
    lockEvents s'.trace = lockEvents s.trace := by
  obtain ⟨d, hd, ha⟩ := h
  rw [hd]
  simp only [lockEvents, List.filter_append, List.append_right_eq_self]
  rw [List.filter_eq_nil]
  intro e he
  have := (List.all_eq_true.mp ha) e he
  simp only [Bool.not_eq_true'] at this
  simp [this]

theorem rankerEvents_of_plainExt {s s' : Sys} (h : plainExt s s') :
    rankerEvents s'.trace = rankerEvents s.trace := by
  obtain ⟨d, hd, ha⟩ := h
  rw [hd]
  simp only [rankerEvents, List.filter_append, List.append_right_eq_self]
  rw [List.filter_eq_nil]
  intro e he
  have := (List.all_eq_true.mp ha) e he
  simp only [isPlainEvent, Bool.and_eq_true, Bool.not_eq_true'] at this
  simp [this.2]

theorem os_read_state (s : Sys) (fh size offset : Nat) :
    (os_read s fh size offset).1 = s := by
  unfold os_read
  split
  · rfl
  · split
    · rfl
    · split
      · rfl
      · rfl

theorem os_open_plainExt (s : Sys) (k : CKey) (fl : Flags) (m : Int) :
    plainExt s (os_open s k fl m).1 := by
  unfold os_open
  split
  · split
    · split
      · exact plainExt_refl s
      · exact ⟨[Event.fsOpen k], by simp, rfl⟩
    · exact ⟨[Event.fsOpen k], by simp, rfl⟩
  · split
    · exact ⟨[Event.fsOpen k], by simp, rfl⟩
    · exact plainExt_refl s

theorem os_rename_plainExt (s : Sys) (src dst : CKey) :
    plainExt s (os_rename s src dst).1 := by
  unfold os_rename
  split
  · exact plainExt_refl s
  · exact ⟨[Event.fsRename src dst], by simp, rfl⟩

theorem os_unlink_plainExt (s : Sys) (k : Option CKey) :
    plainExt s (os_unlink s k).1 := by
  unfold os_unlink
  split
  · exact plainExt_refl s
  · next k0 =>
      split
      · exact plainExt_refl s
      · split
        · exact plainExt_refl s
        · exact ⟨[Event.fsUnlink k0], by simp, rfl⟩

theorem os_mkdir_plainExt (s : Sys) (k : CKey) (m : Int) :
    plainExt s (os_mkdir s k m).1 := by
  unfold os_mkdir
  split
  · exact plainExt_refl s
  · exact ⟨[Event.fsMkdir k], by simp, rfl⟩

theorem os_rmdir_plainExt (s : Sys) (k : CKey) :
    plainExt s (os_rmdir s k).1 := by
  unfold os_rmdir
  split
  · exact plainExt_refl s
  · split
    · exact ⟨[Event.fsRmdir k], by simp, rfl⟩
    · exact plainExt_refl s

theorem os_utime_plainExt (s : Sys) (k : CKey) (a m : Int) :
    plainExt s (os_utime s k a m).1 := by
  unfold os_utime
  split
  · exact plainExt_refl s
  · exact ⟨[Event.fsUtime k], by simp, rfl⟩

theorem os_write_plainExt (s : Sys) (fh : Nat) (data : String) (offset : Nat) :
    plainExt s (os_write s fh data offset).1 := by
  unfold os_write
  split
  · exact plainExt_refl s
  · next k0 heq0 =>
      split
      · exact plainExt_refl s
      · split
        · exact ⟨[Event.fsWrite k0], by simp, rfl⟩
        · exact plainExt_refl s

theorem os_utime_plainExt' {X s5 : Sys} {r : Except Err Unit} (k : CKey)
    (a m : Int) (heq : os_utime X k a m = (s5, r)) : plainExt X s5 := by
  have h := os_utime_plainExt X k a m
  rw [heq] at h
  exact h

theorem replace_dummy_inner_plainExt (s : Sys) (oi : Option Nat) :
    plainExt s (Cache._replace_dummy s oi).1 := by
  unfold Cache._replace_dummy
  split
  · exact plainExt_refl s
  · next path heq0 =>
    dsimp only
    split
    · exact plainExt_refl s
    · next df heq1 =>
      split
      · exact plainExt_refl s
      · next stat heq2 =>
        split
        · next s1 e heq3 =>
          have h1 := os_rename_plainExt s
            (add_dummy_ending (to_cache_path path)) (to_cache_path path)
          rw [heq3] at h1
          exact h1
        · next s1 a heq3 =>
          have h1 := os_rename_plainExt s
            (add_dummy_ending (to_cache_path path)) (to_cache_path path)
          rw [heq3] at h1
          split
          · exact h1
          · next f heq4 =>
            split
            · exact plainExt_trans h1
                ⟨[Event.fsTruncate (to_cache_path path), Event.apiDownload oi],
                 by simp, rfl⟩
            · next content heq5 =>
              split
              · next s5 e heq6 =>
                have h3 := os_utime_plainExt' _ _ _ heq6
                refine plainExt_trans h1 (plainExt_trans
                  (⟨[Event.fsTruncate (to_cache_path path), Event.apiDownload oi,
                     Event.fsWrite (to_cache_path path)], by simp, rfl⟩) h3)
              · next s5 a2 heq6 =>
                have h3 := os_utime_plainExt' _ _ _ heq6
                refine plainExt_trans h1 (plainExt_trans
                  (⟨[Event.fsTruncate (to_cache_path path), Event.apiDownload oi,
                     Event.fsWrite (to_cache_path path)], by simp, rfl⟩)
                  (plainExt_trans h3 ⟨[], by simp, rfl⟩))

theorem get_path_or_dummy_record (s : Sys) (e : Event) (p : String) :
    Cache._get_path_or_dummy (record s e) p = Cache._get_path_or_dummy s p := rfl

theorem state_exists_record (s : Sys) (e : Event) (oi : Option Nat) :
    state_exists (record s e) oi = state_exists s oi := rfl

theorem get_path_plainExt (s : Sys) (p : String) :
    plainExt s (Cache._get_path s p).1 := by
  unfold Cache._get_path
  dsimp only
  split
  · split
    · next s1 e heq =>
        have h := replace_dummy_inner_plainExt s (get_inode s p)
        rw [heq] at h
        exact h
    · next s1 a heq =>
        have h := replace_dummy_inner_plainExt s (get_inode s p)
        rw [heq] at h
        exact h
  · exact plainExt_refl s

theorem rename_tail_plainExt (s : Sys) (o n : String) :
    plainExt s (Cache.rename_tail s o n).1 := by
  unfold Cache.rename_tail
  split
  · next s1 e heq =>
      have h := os_rename_plainExt s (to_cache_path o) (to_cache_path n)
      rw [heq] at h
      exact h
  · next s1 a heq =>
      have h := os_rename_plainExt s (to_cache_path o) (to_cache_path n)
      rw [heq] at h
      exact plainExt_trans h ⟨[], by simp, rfl⟩

theorem delete_file_noLockExt (s : Sys) (p : String) :
    noLockExt s (Cache._delete_file s p).1 := by
  unfold Cache._delete_file
  dsimp only
  split
  · next s2 e heq =>
      have h := os_unlink_plainExt (delete_path s p) (Cache._get_path_or_dummy s p)
      rw [heq] at h
      exact noLockExt_trans ⟨[], by simp, rfl⟩ (noLockExt_of_plainExt h)
  · next s2 a heq =>
      have h := os_unlink_plainExt (delete_path s p) (Cache._get_path_or_dummy s p)
      rw [heq] at h
      exact noLockExt_trans ⟨[], by simp, rfl⟩
        (noLockExt_trans (noLockExt_of_plainExt h)
          ⟨[Event.rankerDelete (get_inode s p)], by simp, rfl⟩)

theorem lockEvents_record_lock (s : Sys) (p : String) (x h : Bool) (r : Nat) :
    lockEvents (record s (Event.lock p x h r)).trace =
      lockEvents s.trace ++ [Event.lock p x h r] := by
  simp [lockEvents, List.filter_append, isLockEvent]

@[simp] theorem isLockEvent_rankerAccess (oi : Option Nat) :
    isLockEvent (Event.rankerAccess oi) = false := rfl

@[simp] theorem isLockEvent_rankerDelete (oi : Option Nat) :
    isLockEvent (Event.rankerDelete oi) = false := rfl

@[simp] theorem isLockEvent_fsOpen (k : CKey) : isLockEvent (Event.fsOpen k) = false := rfl

@[simp] theorem isLockEvent_fsWrite (k : CKey) : isLockEvent (Event.fsWrite k) = false := rfl

@[simp] theorem isLockEvent_fsTruncate (k : CKey) : isLockEvent (Event.fsTruncate k) = false := rfl

@[simp] theorem isLockEvent_fsRename (a b : CKey) : isLockEvent (Event.fsRename a b) = false := rfl

@[simp] theorem isLockEvent_fsUnlink (k : CKey) : isLockEvent (Event.fsUnlink k) = false := rfl

@[simp] theorem isLockEvent_fsMkdir (k : CKey) : isLockEvent (Event.fsMkdir k) = false := rfl

@[simp] theorem isLockEvent_fsRmdir (k : CKey) : isLockEvent (Event.fsRmdir k) = false := rfl

@[simp] theorem isLockEvent_fsUtime (k : CKey) : isLockEvent (Event.fsUtime k) = false := rfl

@[simp] theorem isLockEvent_apiDownload (oi : Option Nat) :
    isLockEvent (Event.apiDownload oi) = false := rfl

@[simp] theorem isLockEvent_lock (p : String) (a b : Bool) (r : Nat) :
    isLockEvent (Event.lock p a b r) = true := rfl

@[simp] theorem isLockEvent_lockDefault (p : String) :
    isLockEvent (Event.lockDefault p) = true := rfl

/-- C5 (amended): open, read, write, truncate, rmdir acquire exactly one
path lock on their argument, exclusive (shared-on-leaf for read), with
high_priority true and retry bound 100; unlink on a non-symlink acquires
one lock with retry bound 10; rename locks the old path (and additionally
the new path when an existing registered file is deleted); but create,
mkdir and getattributes acquire no path lock at all. -/
theorem lock_discipline :
    (∀ s p fl, lockEvents (Cache.open' s p fl).1.trace =
        lockEvents s.trace ++ [Event.lock p true true 100]) ∧
    (∀ s p sz off fh, lockEvents (Cache.read s p sz off fh).1.trace =
        lockEvents s.trace ++ [Event.lock p false true 100]) ∧
    (∀ s p d off fh, lockEvents (Cache.write s p d off fh).1.trace =
        lockEvents s.trace ++ [Event.lock p true true 100]) ∧
    (∀ s p n, lockEvents (Cache.truncate s p n).1.trace =
        lockEvents s.trace ++ [Event.lock p true true 100]) ∧
    (∀ s p, lockEvents (Cache.rmdir s p).1.trace =
        lockEvents s.trace ++ [Event.lock p true true 100]) ∧
    (∀ s p k, Cache._get_path_or_dummy s p = some k →
      Cache.is_link s (some k) = .ok false →
      lockEvents (Cache.unlink s p).1.trace =
        lockEvents s.trace ++ [Event.lock p true true 10]) ∧
    (∀ s o n, get_inode s n = none →
      lockEvents (Cache.rename s o n).1.trace =
        lockEvents s.trace ++ [Event.lock o true true 100]) ∧
    (∀ s o n j, get_inode s n = some j → state_exists s (some j) = true →
      lockEvents (Cache.rename s o n).1.trace =
        lockEvents s.trace ++
          [Event.lock o true true 100, Event.lock n true true 100]) ∧
    (∀ s p m, lockEvents (Cache.create s p m).1.trace = lockEvents s.trace) ∧
    (∀ s p m, lockEvents (Cache.mkdir s p m).1.trace = lockEvents s.trace) ∧
    (∀ s p, (runOp s (Op.getattributes p)).1 = s) := by
  refine ⟨?_, ?_, ?_, ?_, ?_, ?_, ?_, ?_, ?_, ?_, ?_⟩
  · intro s p fl
    unfold Cache.open'
    dsimp only
    split
    · next s1 e heq =>
        have h := get_path_plainExt (record s (Event.lock p true true 100)) p
        rw [heq] at h
        rw [lockEvents_of_noLockExt (noLockExt_of_plainExt h),
            lockEvents_record_lock]
    · next s1 k heq =>
        have h := get_path_plainExt (record s (Event.lock p true true 100)) p
        rw [heq] at h
        have h2 := os_open_plainExt s1 k fl 511
        rw [lockEvents_of_noLockExt (noLockExt_of_plainExt h2),
            lockEvents_of_noLockExt (noLockExt_of_plainExt h),
            lockEvents_record_lock]
  · intro s p sz off fh
    unfold Cache.read
    dsimp only
    rw [os_read_state]
    simp [lockEvents, List.filter_append, isLockEvent]
  · intro s p d off fh
    unfold Cache.write
    dsimp only
    simp only [handle_inode_access_eq]
    split
    · next s2 e heq =>
        have h := os_write_plainExt
          (record (record s (Event.lock p true true 100))
            (Event.rankerAccess (get_inode (record s (Event.lock p true true 100)) p)))
          fh d off
        rw [heq] at h
        rw [lockEvents_of_noLockExt (noLockExt_of_plainExt h)]
        simp [lockEvents, List.filter_append, isLockEvent]
    · next s2 r heq =>
        have h := os_write_plainExt
          (record (record s (Event.lock p true true 100))
            (Event.rankerAccess (get_inode (record s (Event.lock p true true 100)) p)))
          fh d off
        rw [heq] at h
        have : lockEvents (set_dirty s2
            (get_inode (record s (Event.lock p true true 100)) p)).trace =
            lockEvents s2.trace := rfl
        rw [this, lockEvents_of_noLockExt (noLockExt_of_plainExt h)]
        simp [lockEvents, List.filter_append, isLockEvent]
  · intro s p n
    unfold Cache.truncate
    dsimp only
    simp only [handle_inode_access_eq]
    split
    · next s1 e heq =>
        have h := get_path_plainExt (record s (Event.lock p true true 100)) p
        rw [heq] at h
        rw [lockEvents_of_noLockExt (noLockExt_of_plainExt h),
            lockEvents_record_lock]
    · next s1 k heq =>
        have h := get_path_plainExt (record s (Event.lock p true true 100)) p
        rw [heq] at h
        have h1 : List.filter isLockEvent s1.trace =
            List.filter isLockEvent s.trace ++ [Event.lock p true true 100] := by
          have h2 := lockEvents_of_noLockExt (noLockExt_of_plainExt h)
          simp only [lockEvents] at h2
          rw [h2, record_trace, List.filter_append]
          simp
        split
        · simp [lockEvents, List.filter_append, h1]
        · next f heqf =>
            split
            · simp [lockEvents, List.filter_append, h1]
            · simp [lockEvents, List.filter_append, h1]
            · simp [lockEvents, List.filter_append, h1]
  · intro s p
    unfold Cache.rmdir
    dsimp only
    have h := os_rmdir_plainExt
      (delete_path (record s (Event.lock p true true 100)) p) (to_cache_path p)
    rw [lockEvents_of_noLockExt (noLockExt_of_plainExt h)]
    rw [show lockEvents (delete_path (record s (Event.lock p true true 100)) p).trace =
        lockEvents (record s (Event.lock p true true 100)).trace from rfl]
    rw [lockEvents_record_lock]
  · intro s p k hres hlink
    unfold Cache.unlink
    dsimp only
    rw [hres, hlink]
    have h := delete_file_noLockExt (record s (Event.lock p true true 10)) p
    show lockEvents (Cache._delete_file (record s (Event.lock p true true 10)) p).1.trace = _
    rw [lockEvents_of_noLockExt h, lockEvents_record_lock]
  · intro s o n hn
    unfold Cache.rename
    dsimp only
    rw [get_inode_record, hn]
    dsimp only
    have h := rename_tail_plainExt (record s (Event.lock o true true 100)) o n
    rw [lockEvents_of_noLockExt (noLockExt_of_plainExt h), lockEvents_record_lock]
  · intro s o n j hn hex
    unfold Cache.rename
    dsimp only
    rw [get_inode_record, hn]
    dsimp only
    rw [show state_exists (record s (Event.lock o true true 100)) (some j) =
        state_exists s (some j) from rfl, hex]
    simp only [eq_self_iff_true, if_true]
    split
    · next s2 e heq =>
        have h := delete_file_noLockExt
          (record (record s (Event.lock o true true 100)) (Event.lock n true true 100)) n
        rw [heq] at h
        rw [lockEvents_of_noLockExt h, lockEvents_record_lock,
            lockEvents_record_lock, List.append_assoc]
        rfl
    · next s2 a heq =>
        have h := delete_file_noLockExt
          (record (record s (Event.lock o true true 100)) (Event.lock n true true 100)) n
        rw [heq] at h
        have h2 := rename_tail_plainExt s2 o n
        rw [lockEvents_of_noLockExt (noLockExt_of_plainExt h2),
            lockEvents_of_noLockExt h, lockEvents_record_lock,
            lockEvents_record_lock, List.append_assoc]
        rfl
  · intro s p m
    unfold Cache.create
    dsimp only
    simp only [handle_inode_access_eq]
    split
    · next s1 e heq =>
        have h := os_open_plainExt s (to_cache_path p) O_WRONLY_CREAT_TRUNC m
        rw [heq] at h
        rw [lockEvents_of_noLockExt (noLockExt_of_plainExt h)]
    · next s1 r heq =>
        have h := os_open_plainExt s (to_cache_path p) O_WRONLY_CREAT_TRUNC m
        rw [heq] at h
        simp only [record_trace, set_dirty_trace, create_path_trace, lockEvents,
          List.filter_append]
        rw [show List.filter isLockEvent
            [Event.rankerAccess (get_inode (create_path s1 p) p)] = [] from rfl]
        have := lockEvents_of_noLockExt (noLockExt_of_plainExt h)
        simp only [lockEvents] at this
        rw [List.append_nil, this]
  · intro s p m
    unfold Cache.mkdir
    dsimp only
    have h := os_mkdir_plainExt (create_path s p) (to_cache_path p) m
    rw [lockEvents_of_noLockExt (noLockExt_of_plainExt h)]
    rfl
  · intro s p
    rfl

/-- Counterexample to C5 as stated: create completes on a fresh path while
acquiring no path lock at all. -/
theorem create_takes_no_lock_cex :
    (Cache.create c5pre "/c" 420).2 = .ok 1 ∧
    lockEvents (Cache.create c5pre "/c" 420).1.trace = [] :=
  ⟨rfl, rfl⟩

/-- Witness for the amended C5: unlink of a concrete resident file records
exactly the retry-10 high-priority lock. -/
theorem lock_discipline_witness :
    lockEvents (Cache.unlink c5w "/w").1.trace =
      lockEvents c5w.trace ++ [Event.lock "/w" true true 10] :=
  lock_discipline.2.2.2.2.2.1 c5w "/w" (to_cache_path "/w") rfl rfl

@[simp] theorem isRankerEvent_lock (p : String) (a b : Bool) (r : Nat) :
    isRankerEvent (Event.lock p a b r) = false := rfl

@[simp] theorem isRankerEvent_lockDefault (p : String) :
    isRankerEvent (Event.lockDefault p) = false := rfl

@[simp] theorem isRankerEvent_rankerAccess (oi : Option Nat) :
    isRankerEvent (Event.rankerAccess oi) = true := rfl

@[simp] theorem isRankerEvent_rankerDelete (oi : Option Nat) :
    isRankerEvent (Event.rankerDelete oi) = true := rfl

/-- C4 (amended): read, write, truncate, create and unlink-of-a-file each
notify the ranker exactly once per operation, but the notification is
ordered before the on-disk effect for write and truncate (and read has no
on-disk effect), and after it for create and the deletion notification of
unlink; hydration through open notifies the ranker zero times.  Each
conjunct gives the exact event sequence the operation appends. -/
theorem ranker_notification :
    (∀ s p sz off fh, (Cache.read s p sz off fh).1.trace =
        s.trace ++ [Event.lock p false true 100,
          Event.rankerAccess (get_inode s p)]) ∧
    (∀ s p d off fh k f c, alookup s.fds fh = some k →
      alookup s.disk k = some f → f.data = .bytes c →
      (Cache.write s p d off fh).1.trace =
        s.trace ++ [Event.lock p true true 100,
          Event.rankerAccess (get_inode s p), Event.fsWrite k]) ∧
    (∀ s p n f c, alookup s.disk (add_dummy_ending (to_cache_path p)) = none →
      alookup s.disk (to_cache_path p) = some f → f.data = .bytes c →
      (Cache.truncate s p n).1.trace =
        s.trace ++ [Event.lock p true true 100,
          Event.rankerAccess (get_inode s p),
          Event.fsTruncate (to_cache_path p)]) ∧
    (∀ s p m, alookup s.disk (to_cache_path p) = none →
      alookup s.registry p = none →
      (Cache.create s p m).1.trace =
        s.trace ++ [Event.fsOpen (to_cache_path p),
          Event.rankerAccess (some s.nextInode)]) ∧
    (∀ s p k f c, Cache._get_path_or_dummy s p = some k →
      alookup s.disk k = some f → f.data = .bytes c →
      (Cache.unlink s p).1.trace =
        s.trace ++ [Event.lock p true true 10, Event.fsUnlink k,
          Event.rankerDelete (get_inode s p)]) ∧
    (∀ s p fl, rankerEvents (Cache.open' s p fl).1.trace =
        rankerEvents s.trace) := by
  refine ⟨?_, ?_, ?_, ?_, ?_, ?_⟩
  · intro s p sz off fh
    unfold Cache.read
    dsimp only
    rw [os_read_state]
    simp [get_inode_record, List.append_assoc]
  · intro s p d off fh k f c hk hf hfd
    unfold Cache.write
    dsimp only
    simp only [handle_inode_access_eq]
    have hk' : alookup (record (record s (Event.lock p true true 100))
        (Event.rankerAccess (get_inode (record s (Event.lock p true true 100)) p))).fds fh =
        some k := hk
    simp only [os_write, hk', record_disk, hf, hfd]
    simp only [record_trace, set_dirty_trace, get_inode_record,
      List.append_assoc]
    rfl
  · intro s p n f c hnd hb hfd
    unfold Cache.truncate Cache._get_path
    dsimp only
    have hnd' : os_path_exists (record s (Event.lock p true true 100))
        (add_dummy_ending (to_cache_path p)) = false := by
      simp [os_path_exists, hnd]
    simp only [handle_inode_access_eq, hnd', Bool.false_eq_true, if_false]
    have hb' : alookup (record (set_dirty (record s (Event.lock p true true 100))
        (get_inode (record s (Event.lock p true true 100)) p))
        (Event.rankerAccess (get_inode (record s (Event.lock p true true 100)) p))).disk
        (to_cache_path p) = some f := hb
    simp only [hb', hfd]
    simp only [record_trace, set_dirty_trace, get_inode_record,
      List.append_assoc]
    rfl
  · intro s p m hb hreg
    unfold Cache.create
    dsimp only
    simp only [handle_inode_access_eq, os_open, hb, O_WRONLY_CREAT_TRUNC,
      if_true]
    have hleaf : get_inode (create_path (record { s with
        disk := aset s.disk (to_cache_path p) ⟨.bytes "", s.now, s.now, m, 0, 0⟩,
        fds := aset s.fds s.nextFd (to_cache_path p),
        nextFd := s.nextFd + 1 } (Event.fsOpen (to_cache_path p))) p) p =
        some s.nextInode := by
      simp only [get_inode, create_path_registry, record_registry,
        alookup_append]
      rw [hreg]
      simp [alookup]
    rw [hleaf]
    simp only [record_trace, set_dirty_trace, create_path_trace,
      List.append_assoc]
    rfl
  · intro s p k f c hres hf hfd
    unfold Cache.unlink
    dsimp only
    rw [hres]
    rw [show Cache.is_link s (some k) = .ok false by
      simp [Cache.is_link, hf, hfd]]
    show (Cache._delete_file (record s (Event.lock p true true 10)) p).1.trace = _
    unfold Cache._delete_file
    dsimp only
    rw [get_path_or_dummy_record, hres]
    have hf' : alookup (delete_path (record s (Event.lock p true true 10)) p).disk k =
        some f := hf
    simp only [os_unlink, hf', hfd]
    simp only [handle_inode_delete_eq, record_trace, set_todelete_trace,
      delete_path_trace, get_inode_record, List.append_assoc]
    rfl
  · intro s p fl
    unfold Cache.open'
    dsimp only
    split
    · next s1 e heq =>
        have h := get_path_plainExt (record s (Event.lock p true true 100)) p
        rw [heq] at h
        rw [rankerEvents_of_plainExt h]
        simp [rankerEvents, List.filter_append]
    · next s1 k heq =>
        have h := get_path_plainExt (record s (Event.lock p true true 100)) p
        rw [heq] at h
        have h2 := os_open_plainExt s1 k fl 511
        rw [rankerEvents_of_plainExt h2, rankerEvents_of_plainExt h]
        simp [rankerEvents, List.filter_append]

/-- Counterexample to C4 as stated: hydration through open completes while
notifying the ranker zero times, and a completed write records its ranker
notification before (not after) the on-disk write. -/
theorem ranker_notification_cex :
    (Cache.open' c4pre "/b" O_RDONLY).2 = .ok 1 ∧
    rankerEvents (Cache.open' c4pre "/b" O_RDONLY).1.trace = [] ∧
    (Cache.write c4pre2 "/a" "X" 0 3).2 = .ok 1 ∧
    (Cache.write c4pre2 "/a" "X" 0 3).1.trace =
      [Event.lock "/a" true true 100, Event.rankerAccess (some 1),
       Event.fsWrite (to_cache_path "/a")] :=
  ⟨rfl, rfl, rfl, rfl⟩

/-- Witness for the amended C4: a concrete completed write appends exactly
one lock, one ranker notification and then the disk write. -/
theorem ranker_notification_witness :
    (Cache.write c4pre2 "/a" "hi" 0 3).1.trace =
      c4pre2.trace ++ [Event.lock "/a" true true 100,
        Event.rankerAccess (get_inode c4pre2 "/a"),
        Event.fsWrite (to_cache_path "/a")] :=
  ranker_notification.2.1 c4pre2 "/a" "hi" 0 3 (to_cache_path "/a")
    ⟨.bytes "hello", 1, 2, 420, 0, 0⟩ "hello" rfl rfl rfl

theorem alookup_eq_none_iff_keys [DecidableEq κ] (l : List (κ × α)) (k : κ) :
    alookup l k = none ↔ k ∉ l.map Prod.fst := by
  induction l with
  | nil => simp [alookup]
  | cons e l ih =>
      by_cases h : k = e.1
      · simp [alookup, h]
      · simp [alookup, h, ih]

theorem alookup_eq_some_of_mem_nodup [DecidableEq κ] {l : List (κ × α)}
    (hnd : (l.map Prod.fst).Nodup) {k : κ} {v : α} (h : (k, v) ∈ l) :
    alookup l k = some v := by
  induction l with
  | nil => simp at h
  | cons e l ih =>
      simp only [List.map_cons, List.nodup_cons] at hnd
      rcases List.mem_cons.mp h with h0 | h0
      · rw [← h0]
        simp [alookup]
      · have hk : k ≠ e.1 := by
          intro hk
          exact hnd.1 (hk ▸ List.mem_map_of_mem Prod.fst h0)
        simp [alookup, hk, ih hnd.2 h0]

theorem mem_aremove_imp [DecidableEq κ] {l : List (κ × α)} {k : κ}
    {x : κ × α} (h : x ∈ aremove l k) : x ∈ l ∧ x.1 ≠ k := by
  induction l with
  | nil => simp [aremove] at h
  | cons e l ih =>
      by_cases h0 : k = e.1
      · rw [aremove, if_pos h0] at h
        obtain ⟨h1, h2⟩ := ih h
        exact ⟨List.mem_cons_of_mem _ h1, h2⟩
      · rw [aremove, if_neg h0] at h
        rcases List.mem_cons.mp h with h1 | h1
        · subst h1
          exact ⟨List.mem_cons_self _ _, fun hx => h0 hx.symm⟩
        · obtain ⟨h2, h3⟩ := ih h1
          exact ⟨List.mem_cons_of_mem _ h2, h3⟩

theorem aremove_sublist [DecidableEq κ] (l : List (κ × α)) (k : κ) :
    (aremove l k).Sublist l := by
  induction l with
  | nil => simp [aremove]
  | cons e l ih =>
      by_cases h0 : k = e.1
      · rw [aremove, if_pos h0]
        exact ih.cons e
      · rw [aremove, if_neg h0]
        exact ih.cons₂ e

theorem storeInv_iff (s : Sys) :
    StoreInv s ↔ ∀ e ∈ s.registry, entryOK s.disk s.states e = true := by
  simp [StoreInv, InvB, List.all_eq_true]

theorem entryOK_congr (d d' : List (CKey × File))
    (st st' : List (Option Nat × Tag)) (e : String × Nat)
    (hb : bareEx d' e.1 = bareEx d e.1) (hd : dummyEx d' e.1 = dummyEx d e.1)
    (hs : alookup st' (some e.2) = alookup st (some e.2)) :
    entryOK d' st' e = entryOK d st e := by
  unfold entryOK
  rw [hs]
  cases alookup st (some e.2) with
  | none => rfl
  | some t => cases t <;> simp [formOK, hb, hd]

theorem bareEx_aset_bare_self (d : List (CKey × File)) (p : String) (f : File) :
    bareEx (aset d (to_cache_path p) f) p = true := by
  simp [bareEx, alookup_aset_self]

theorem bareEx_aset_bare_ne (d : List (CKey × File)) (p q : String) (f : File)
    (h : q ≠ p) : bareEx (aset d (to_cache_path p) f) q = bareEx d q := by
  unfold bareEx
  rw [alookup_aset_ne]
  intro hh
  exact h ((to_cache_path_inj q p).mp hh)

theorem dummyEx_aset_bare (d : List (CKey × File)) (p q : String) (f : File) :
    dummyEx (aset d (to_cache_path p) f) q = dummyEx d q := by
  unfold dummyEx
  rw [alookup_aset_ne]
  exact dummy_ne_bare _ _

theorem bareEx_aset_dummy (d : List (CKey × File)) (p q : String) (f : File) :
    bareEx (aset d (add_dummy_ending (to_cache_path p)) f) q = bareEx d q := by
  unfold bareEx
  rw [alookup_aset_ne]
  exact bare_ne_dummy _ _

theorem dummyEx_aset_dummy_self (d : List (CKey × File)) (p : String) (f : File) :
    dummyEx (aset d (add_dummy_ending (to_cache_path p)) f) p = true := by
  simp [dummyEx, alookup_aset_self]

theorem dummyEx_aset_dummy_ne (d : List (CKey × File)) (p q : String) (f : File)
    (h : q ≠ p) :
    dummyEx (aset d (add_dummy_ending (to_cache_path p)) f) q = dummyEx d q := by
  unfold dummyEx
  rw [alookup_aset_ne]
  intro hh
  exact h ((dummy_to_cache_path_inj q p).mp hh)

theorem bareEx_aremove_bare_self (d : List (CKey × File)) (p : String) :
    bareEx (aremove d (to_cache_path p)) p = false := by
  simp [bareEx, alookup_aremove_self]

theorem bareEx_aremove_bare_ne (d : List (CKey × File)) (p q : String)
    (h : q ≠ p) : bareEx (aremove d (to_cache_path p)) q = bareEx d q := by
  unfold bareEx
  rw [alookup_aremove_ne]
  intro hh
  exact h ((to_cache_path_inj q p).mp hh)

theorem dummyEx_aremove_bare (d : List (CKey × File)) (p q : String) :
    dummyEx (aremove d (to_cache_path p)) q = dummyEx d q := by
  unfold dummyEx
  rw [alookup_aremove_ne]
  exact dummy_ne_bare _ _

theorem bareEx_aremove_dummy (d : List (CKey × File)) (p q : String) :
    bareEx (aremove d (add_dummy_ending (to_cache_path p))) q = bareEx d q := by
  unfold bareEx
  rw [alookup_aremove_ne]
  exact bare_ne_dummy _ _

theorem dummyEx_aremove_dummy_self (d : List (CKey × File)) (p : String) :
    dummyEx (aremove d (add_dummy_ending (to_cache_path p))) p = false := by
  simp [dummyEx, alookup_aremove_self]

theorem dummyEx_aremove_dummy_ne (d : List (CKey × File)) (p q : String)
    (h : q ≠ p) :
    dummyEx (aremove d (add_dummy_ending (to_cache_path p))) q = dummyEx d q := by
  unfold dummyEx
  rw [alookup_aremove_ne]
  intro hh
  exact h ((dummy_to_cache_path_inj q p).mp hh)

theorem get_paths_head_mem (s : Sys) (i : Nat) (p0 : String)
    (h : (get_paths s (some i)).head? = some p0) : (p0, i) ∈ s.registry := by
  simp only [get_paths] at h
  rcases hh : s.registry.filter (fun e => e.2 = i) with _ | ⟨e, rest⟩
  · rw [hh] at h
    simp at h
  · rw [hh] at h
    simp only [List.map_cons, List.head?_cons, Option.some.injEq] at h
    have he : e ∈ s.registry.filter (fun e => e.2 = i) := by
      rw [hh]
      exact List.mem_cons_self _ _
    obtain ⟨hmem, hp⟩ := List.mem_filter.mp he
    have h2 : e.2 = i := by simpa using hp
    have : e = (p0, i) := by
      cases e
      simp only [Prod.mk.injEq]
      exact ⟨h, h2⟩
    rw [this] at hmem
    exact hmem

theorem registry_key_unique {s : Sys} (hwf : RegWF s) {p : String} {i j : Nat}
    (h1 : (p, i) ∈ s.registry) (h2 : (p, j) ∈ s.registry) : i = j := by
  have hinj := List.inj_on_of_nodup_map hwf.1
  have := hinj h1 h2 rfl
  cases this
  rfl

theorem registry_inode_unique {s : Sys} (hwf : RegWF s) {p q : String} {i : Nat}
    (h1 : (p, i) ∈ s.registry) (h2 : (q, i) ∈ s.registry) : p = q := by
  have hinj := List.inj_on_of_nodup_map hwf.2.1
  have := hinj h1 h2 rfl
  cases this
  rfl

theorem states_fresh_none {s : Sys} (hwf : RegWF s) {j : Nat}
    (hj : s.nextInode ≤ j) : alookup s.states (some j) = none := by
  rcases hx : alookup s.states (some j) with _ | t
  · rfl
  · exfalso
    have hm := mem_of_alookup_eq_some _ _ _ hx
    have := (List.all_eq_true.mp hwf.2.2.2) _ hm
    simp at this
    omega

theorem storeInv_of_forms (s s' : Sys) (hinv : StoreInv s)
    (hreg : s'.registry = s.registry)
    (hst : ∀ j, alookup s'.states (some j) = alookup s.states (some j))
    (hb : ∀ q, bareEx s'.disk q = bareEx s.disk q)
    (hd : ∀ q, dummyEx s'.disk q = dummyEx s.disk q) : StoreInv s' := by
  rw [storeInv_iff] at hinv ⊢
  intro e he
  rw [hreg] at he
  rw [entryOK_congr s.disk s'.disk s.states s'.states e (hb e.1) (hd e.1)
    (hst e.2)]
  exact hinv e he

theorem regWF_of_eq (s s' : Sys) (hwf : RegWF s)
    (hreg : s'.registry = s.registry) (hni : s'.nextInode = s.nextInode)
    (hst : s'.states = s.states) : RegWF s' := by
  unfold RegWF at *
  rw [hreg, hni, hst]
  exact hwf

theorem os_open_nocreat_forms (s : Sys) (k : CKey) (fl : Flags) (m : Int)
    (hcreat : fl.creat = false) :
    (os_open s k fl m).2.isOk = true →
    (os_open s k fl m).1.registry = s.registry ∧
    (os_open s k fl m).1.states = s.states ∧
    (os_open s k fl m).1.nextInode = s.nextInode ∧
    ∀ k', (alookup (os_open s k fl m).1.disk k').isSome =
      (alookup s.disk k').isSome := by
  unfold os_open
  split
  · next f heq =>
      split
      · split
        · intro hok
          simp [Except.isOk, Except.toBool] at hok
        · intro _
          refine ⟨rfl, rfl, rfl, fun k' => rfl⟩
      · intro _
        refine ⟨rfl, rfl, rfl, fun k' => ?_⟩
        simp only [record_disk]
        by_cases hk : k' = k
        · subst hk
          rw [alookup_aset_self, heq]
          rfl
        · rw [alookup_aset_ne _ _ _ _ hk]
  · rw [hcreat]
    intro hok
    simp [Except.isOk, Except.toBool] at hok

theorem get_path_or_dummy_cases {s : Sys} {p : String} {k : CKey}
    (h : Cache._get_path_or_dummy s p = some k) :
    (k = to_cache_path p ∧ bareEx s.disk p = true) ∨
    (k = add_dummy_ending (to_cache_path p) ∧ bareEx s.disk p = false ∧
      dummyEx s.disk p = true) := by
  unfold Cache._get_path_or_dummy at h
  by_cases hb : os_path_exists s (to_cache_path p)
  · rw [if_pos hb] at h
    left
    exact ⟨(Option.some.inj h).symm, hb⟩
  · rw [if_neg hb] at h
    by_cases hd : os_path_exists s (add_dummy_ending (to_cache_path p))
    · rw [if_pos hd] at h
      right
      refine ⟨(Option.some.inj h).symm, ?_, hd⟩
      simpa [os_path_exists, bareEx] using hb
    · rw [if_neg hd] at h
      cases h

theorem rmdir_ok (s : Sys) (p : String) :
    (Cache.rmdir s p).2.isOk = true →
    (Cache.rmdir s p).1.registry = aremove s.registry p ∧
    (Cache.rmdir s p).1.disk = aremove s.disk (to_cache_path p) ∧
    (Cache.rmdir s p).1.states = s.states ∧
    (Cache.rmdir s p).1.nextInode = s.nextInode := by
  unfold Cache.rmdir os_rmdir
  dsimp only
  split
  · intro hok
    simp [Except.isOk, Except.toBool] at hok
  · split
    · intro _
      exact ⟨rfl, rfl, rfl, rfl⟩
    · intro hok
      simp [Except.isOk, Except.toBool] at hok

theorem os_unlink_ok (s : Sys) (k : Option CKey) :
    (os_unlink s k).2.isOk = true →
    ∃ k0, k = some k0 ∧ (os_unlink s k).1.registry = s.registry ∧
      (os_unlink s k).1.disk = aremove s.disk k0 ∧
      (os_unlink s k).1.states = s.states ∧
      (os_unlink s k).1.nextInode = s.nextInode := by
  unfold os_unlink
  split
  · intro hok
    simp [Except.isOk, Except.toBool] at hok
  · next k0 =>
      split
      · intro hok
        simp [Except.isOk, Except.toBool] at hok
      · split
        · intro hok
          simp [Except.isOk, Except.toBool] at hok
        · intro _
          exact ⟨k0, rfl, rfl, rfl, rfl, rfl⟩

theorem delete_file_ok (s : Sys) (p : String) :
    (Cache._delete_file s p).2.isOk = true →
    ∃ k, Cache._get_path_or_dummy s p = some k ∧
    (Cache._delete_file s p).1.registry = aremove s.registry p ∧
    (Cache._delete_file s p).1.disk = aremove s.disk k ∧
    (Cache._delete_file s p).1.states =
      aset s.states (get_inode s p) Tag.toDelete ∧
    (Cache._delete_file s p).1.nextInode = s.nextInode := by
  unfold Cache._delete_file
  dsimp only
  split
  · intro hok
    simp [Except.isOk, Except.toBool] at hok
  · next s2 a heq =>
      intro _
      have h := os_unlink_ok (delete_path s p) (Cache._get_path_or_dummy s p)
        (by rw [heq]; rfl)
      rw [heq] at h
      obtain ⟨k0, hk0, hreg, hdisk, hst, hni⟩ := h
      refine ⟨k0, hk0, ?_, ?_, ?_, ?_⟩
      · simp only [handle_inode_delete_eq, set_todelete_registry,
          record_registry]
        simpa [delete_path_registry] using hreg
      · simp only [handle_inode_delete_eq, set_todelete_disk, record_disk]
        simpa [delete_path_disk] using hdisk
      · simp only [handle_inode_delete_eq, set_todelete_states, record_states]
        have hst' : s2.states = s.states := by
          simpa [delete_path_states] using hst
        rw [hst']
      · simp only [handle_inode_delete_eq, set_todelete_nextInode,
          record_nextInode]
        simpa [delete_path_nextInode] using hni

theorem os_rename_ok (s : Sys) (src dst : CKey) :
    (os_rename s src dst).2.isOk = true →
    ∃ f, alookup s.disk src = some f ∧
      (os_rename s src dst).1.registry = s.registry ∧
      (os_rename s src dst).1.states = s.states ∧
      (os_rename s src dst).1.nextInode = s.nextInode ∧
      (os_rename s src dst).1.download = s.download ∧
      (os_rename s src dst).1.disk = aset (aremove s.disk src) dst f := by
  unfold os_rename
  split
  · intro hok
    simp [Except.isOk, Except.toBool] at hok
  · next f heq =>
      intro _
      exact ⟨f, heq, rfl, rfl, rfl, rfl, rfl⟩

theorem os_utime_forms (s : Sys) (k : CKey) (a m : Int) :
    (os_utime s k a m).2.isOk = true →
    (os_utime s k a m).1.registry = s.registry ∧
    (os_utime s k a m).1.states = s.states ∧
    (os_utime s k a m).1.nextInode = s.nextInode ∧
    ∀ k', (alookup (os_utime s k a m).1.disk k').isSome =
      (alookup s.disk k').isSome := by
  unfold os_utime
  split
  · intro hok
    simp [Except.isOk, Except.toBool] at hok
  · next f heq =>
      intro _
      refine ⟨rfl, rfl, rfl, fun k' => ?_⟩
      simp only [record_disk]
      by_cases hk : k' = k
      · subst hk
        rw [alookup_aset_self, heq]
        rfl
      · rw [alookup_aset_ne _ _ _ _ hk]

theorem os_write_ok (s : Sys) (fh : Nat) (data : String) (offset : Nat) :
    (os_write s fh data offset).2.isOk = true →
    ∃ k f c, alookup s.fds fh = some k ∧ alookup s.disk k = some f ∧
      f.data = FileData.bytes c ∧
      (os_write s fh data offset).1.registry = s.registry ∧
      (os_write s fh data offset).1.states = s.states ∧
      (os_write s fh data offset).1.nextInode = s.nextInode ∧
      ∀ k', (alookup (os_write s fh data offset).1.disk k').isSome =
        (alookup s.disk k').isSome := by
  unfold os_write
  split
  · intro hok
    simp [Except.isOk, Except.toBool] at hok
  · next k0 heq0 =>
      split
      · intro hok
        simp [Except.isOk, Except.toBool] at hok
      · next f heq1 =>
          split
          · next c heq2 =>
              intro _
              refine ⟨k0, f, c, heq0, heq1, heq2, rfl, rfl, rfl, fun k' => ?_⟩
              simp only [record_disk]
              by_cases hk : k' = k0
              · subst hk
                rw [alookup_aset_self, heq1]
                rfl
              · rw [alookup_aset_ne _ _ _ _ hk]
          · intro hok
            simp [Except.isOk, Except.toBool] at hok

theorem os_open_disk_forms (s : Sys) (k : CKey) (fl : Flags) (m : Int) :
    (os_open s k fl m).2.isOk = true →
    (os_open s k fl m).1.registry = s.registry ∧
    (os_open s k fl m).1.states = s.states ∧
    (os_open s k fl m).1.nextInode = s.nextInode ∧
    (alookup (os_open s k fl m).1.disk k).isSome = true ∧
    ∀ k', k' ≠ k → alookup (os_open s k fl m).1.disk k' = alookup s.disk k' := by
  unfold os_open
  split
  · next f heq =>
      split
      · split
        · intro hok
          simp [Except.isOk, Except.toBool] at hok
        · intro _
          refine ⟨rfl, rfl, rfl, ?_, fun k' _ => rfl⟩
          show (alookup s.disk k).isSome = true
          rw [heq]
          rfl
      · intro _
        refine ⟨rfl, rfl, rfl, ?_, fun k' hk => ?_⟩
        · simp only [record_disk]
          rw [alookup_aset_self]
          rfl
        · simp only [record_disk]
          rw [alookup_aset_ne _ _ _ _ hk]
  · split
    · intro _
      refine ⟨rfl, rfl, rfl, ?_, fun k' hk => ?_⟩
      · simp only [record_disk]
        rw [alookup_aset_self]
        rfl
      · simp only [record_disk]
        rw [alookup_aset_ne _ _ _ _ hk]
    · intro hok
      simp [Except.isOk, Except.toBool] at hok

theorem replace_dummy_inner_ok (s : Sys) (oi : Option Nat) :
    (Cache._replace_dummy s oi).2.isOk = true →
    ∃ i p0, oi = some i ∧ (get_paths s (some i)).head? = some p0 ∧
      (Cache._replace_dummy s oi).1.registry = s.registry ∧
      (Cache._replace_dummy s oi).1.nextInode = s.nextInode ∧
      (Cache._replace_dummy s oi).1.states =
        aset s.states (some i) Tag.cleanLocal ∧
      bareEx (Cache._replace_dummy s oi).1.disk p0 = true ∧
      dummyEx (Cache._replace_dummy s oi).1.disk p0 = false ∧
      (∀ q, q ≠ p0 →
        bareEx (Cache._replace_dummy s oi).1.disk q = bareEx s.disk q) ∧
      (∀ q, q ≠ p0 →
        dummyEx (Cache._replace_dummy s oi).1.disk q = dummyEx s.disk q) := by
  unfold Cache._replace_dummy
  split
  · intro hok
    simp [Except.isOk, Except.toBool] at hok
  · next p0 heq0 =>
    dsimp only
    split
    · intro hok
      simp [Except.isOk, Except.toBool] at hok
    · next df heq1 =>
      split
      · intro hok
        simp [Except.isOk, Except.toBool] at hok
      · next stat heq2 =>
        split
        · intro hok
          simp [Except.isOk, Except.toBool] at hok
        · next s1 a heq3 =>
          obtain ⟨df0, hdf0, hreg1, hst1, hni1, hdl1, hdisk1⟩ :=
            os_rename_ok s (add_dummy_ending (to_cache_path p0))
              (to_cache_path p0) (by rw [heq3]; rfl)
          rw [heq3] at hreg1 hst1 hni1 hdl1 hdisk1
          simp only at hreg1 hst1 hni1 hdl1 hdisk1
          split
          · intro hok
            simp [Except.isOk, Except.toBool] at hok
          · next f heq4 =>
            split
            · intro hok
              simp [Except.isOk, Except.toBool] at hok
            · next content heq5 =>
              split
              · intro hok
                simp [Except.isOk, Except.toBool] at hok
              · next s5 a2 heq6 =>
                intro _
                obtain ⟨hreg5, hst5, hni5, hex5⟩ :=
                  os_utime_forms _ (to_cache_path p0) stat.st_atime
                    stat.st_mtime (by rw [heq6]; rfl)
                rw [heq6] at hreg5 hst5 hni5 hex5
                simp only at hreg5 hst5 hni5 hex5
                obtain ⟨i, hoi, hdli⟩ := Option.bind_eq_some.mp heq5
                rw [hoi] at heq0
                refine ⟨i, p0, hoi, heq0, ?_, ?_, ?_, ?_, ?_, ?_, ?_⟩
                · show s5.registry = s.registry
                  rw [hreg5]
                  simp only [record_registry, hreg1]
                · show s5.nextInode = s.nextInode
                  rw [hni5]
                  simp only [record_nextInode, hni1]
                · show aset s5.states oi Tag.cleanLocal = _
                  rw [hoi, hst5]
                  simp only [record_states, hst1]
                · show (alookup s5.disk (to_cache_path p0)).isSome = true
                  rw [hex5]
                  simp only [record_disk]
                  rw [alookup_aset_self]
                  rfl
                · show (alookup s5.disk
                      (add_dummy_ending (to_cache_path p0))).isSome = false
                  rw [hex5]
                  simp only [record_disk]
                  rw [alookup_aset_ne _ _ _ _ (dummy_ne_bare _ _),
                      alookup_aset_ne _ _ _ _ (dummy_ne_bare _ _)]
                  rw [hdisk1]
                  rw [alookup_aset_ne _ _ _ _ (dummy_ne_bare _ _),
                      alookup_aremove_self]
                  rfl
                · intro q hq
                  show (alookup s5.disk (to_cache_path q)).isSome = _
                  rw [hex5]
                  simp only [record_disk]
                  have hqb : to_cache_path q ≠ to_cache_path p0 := by
                    intro hh
                    exact hq ((to_cache_path_inj q p0).mp hh)
                  rw [alookup_aset_ne _ _ _ _ hqb, alookup_aset_ne _ _ _ _ hqb]
                  rw [hdisk1]
                  rw [alookup_aset_ne _ _ _ _ hqb,
                      alookup_aremove_ne _ _ _ (bare_ne_dummy _ _)]
                  rfl
                · intro q hq
                  show (alookup s5.disk
                      (add_dummy_ending (to_cache_path q))).isSome = _
                  rw [hex5]
                  simp only [record_disk]
                  rw [alookup_aset_ne _ _ _ _ (dummy_ne_bare _ _),
                      alookup_aset_ne _ _ _ _ (dummy_ne_bare _ _)]
                  rw [hdisk1]
                  have hqd : add_dummy_ending (to_cache_path q) ≠
                      add_dummy_ending (to_cache_path p0) := by
                    intro hh
                    exact hq ((dummy_to_cache_path_inj q p0).mp hh)
                  rw [alookup_aset_ne _ _ _ _ (dummy_ne_bare _ _),
                      alookup_aremove_ne _ _ _ hqd]
                  rfl

theorem mem_aset_imp [DecidableEq κ] {l : List (κ × α)} {k : κ} {v : α}
    {x : κ × α} (h : x ∈ aset l k v) : x ∈ l ∨ x = (k, v) := by
  induction l with
  | nil =>
      simp [aset] at h
      right
      simp [h]
  | cons e l ih =>
      by_cases h0 : k = e.1
      · rw [aset, if_pos h0] at h
        rcases List.mem_cons.mp h with h1 | h1
        · right
          simp [h1]
        · left
          exact List.mem_cons_of_mem _ h1
      · rw [aset, if_neg h0] at h
        rcases List.mem_cons.mp h with h1 | h1
        · left
          rw [h1]
          exact List.mem_cons_self _ _
        · rcases ih h1 with h2 | h2
          · left
            exact List.mem_cons_of_mem _ h2
          · right
            exact h2

theorem regWF_of_aset_states (s s' : Sys) (oi : Option Nat) (t : Tag)
    (hwf : RegWF s) (hreg : s'.registry = s.registry)
    (hni : s'.nextInode = s.nextInode)
    (hst : s'.states = aset s.states oi t)
    (hoi : ∀ j, oi = some j → j < s.nextInode) : RegWF s' := by
  obtain ⟨h1, h2, h3, h4⟩ := hwf
  refine ⟨by rw [hreg]; exact h1, by rw [hreg]; exact h2,
    by rw [hreg, hni]; exact h3, ?_⟩
  rw [hst, hni]
  rw [List.all_eq_true] at h4 ⊢
  intro e he
  rcases mem_aset_imp he with hm | hm
  · exact h4 e hm
  · rw [hm]
    cases oi with
    | none => rfl
    | some j => simpa using hoi j rfl

theorem replace_dummy_inner_preserves (s : Sys) (oi : Option Nat)
    (hwf : RegWF s) (hinv : StoreInv s)
    (hok : (Cache._replace_dummy s oi).2.isOk = true) :
    StoreInv (Cache._replace_dummy s oi).1 ∧
    RegWF (Cache._replace_dummy s oi).1 := by
  obtain ⟨i, p0, hoi, hcanon, hreg, hni, hst, hbar, hdum, hbq, hdq⟩ :=
    replace_dummy_inner_ok s oi hok
  have hmem : (p0, i) ∈ s.registry := get_paths_head_mem s i p0 hcanon
  constructor
  · rw [storeInv_iff]
    rintro ⟨q, j⟩ he
    rw [hreg] at he
    by_cases hei : j = i
    · subst hei
      have hep : q = p0 := registry_inode_unique hwf he hmem
      subst hep
      unfold entryOK
      rw [hst, alookup_aset_self]
      simp [formOK, hbar, hdum]
    · have hsne : alookup (Cache._replace_dummy s oi).1.states (some j) =
          alookup s.states (some j) := by
        rw [hst]
        exact alookup_aset_ne _ _ _ _ (by simp [hei])
      have hqp : q ≠ p0 := by
        intro hqp
        subst hqp
        exact hei (registry_key_unique hwf he hmem)
      rw [entryOK_congr s.disk _ s.states _ (q, j) (hbq q hqp) (hdq q hqp) hsne]
      exact (storeInv_iff s).mp hinv (q, j) he
  · exact regWF_of_aset_states s _ (some i) Tag.cleanLocal hwf hreg hni hst
      (fun j hj => by
        cases hj
        exact hwf.2.2.1 _ hmem)

theorem os_write_ok' {X s2 : Sys} {r : Nat} (fh : Nat) (data : String)
    (offset : Nat) (heq : os_write X fh data offset = (s2, Except.ok r)) :
    ∃ k f c, alookup X.fds fh = some k ∧ alookup X.disk k = some f ∧
      f.data = FileData.bytes c ∧ s2.registry = X.registry ∧
      s2.states = X.states ∧ s2.nextInode = X.nextInode ∧
      ∀ k', (alookup s2.disk k').isSome = (alookup X.disk k').isSome := by
  have h := os_write_ok X fh data offset (by rw [heq]; rfl)
  rw [heq] at h
  simpa using h

theorem os_open_disk_forms' {X s2 : Sys} {r : Nat} (k : CKey) (fl : Flags)
    (m : Int) (heq : os_open X k fl m = (s2, Except.ok r)) :
    s2.registry = X.registry ∧ s2.states = X.states ∧
    s2.nextInode = X.nextInode ∧ (alookup s2.disk k).isSome = true ∧
    ∀ k', k' ≠ k → alookup s2.disk k' = alookup X.disk k' := by
  have h := os_open_disk_forms X k fl m (by rw [heq]; rfl)
  rw [heq] at h
  simpa using h

theorem os_open_nocreat_forms' {X s2 : Sys} {r : Nat} (k : CKey) (fl : Flags)
    (m : Int) (hcreat : fl.creat = false)
    (heq : os_open X k fl m = (s2, Except.ok r)) :
    s2.registry = X.registry ∧ s2.states = X.states ∧
    s2.nextInode = X.nextInode ∧
    ∀ k', (alookup s2.disk k').isSome = (alookup X.disk k').isSome := by
  have h := os_open_nocreat_forms X k fl m hcreat (by rw [heq]; rfl)
  rw [heq] at h
  simpa using h

theorem delete_file_ok' {X s2 : Sys} (p : String)
    (heq : Cache._delete_file X p = (s2, Except.ok ())) :
    ∃ k, Cache._get_path_or_dummy X p = some k ∧
      s2.registry = aremove X.registry p ∧ s2.disk = aremove X.disk k ∧
      s2.states = aset X.states (get_inode X p) Tag.toDelete ∧
      s2.nextInode = X.nextInode := by
  have h := delete_file_ok X p (by rw [heq]; rfl)
  rw [heq] at h
  simpa using h

theorem rmdir_ok' {X s2 : Sys} {r : Unit} (p : String)
    (heq : Cache.rmdir X p = (s2, Except.ok r)) :
    s2.registry = aremove X.registry p ∧
    s2.disk = aremove X.disk (to_cache_path p) ∧ s2.states = X.states ∧
    s2.nextInode = X.nextInode := by
  have h := rmdir_ok X p (by rw [heq]; rfl)
  rw [heq] at h
  simpa using h

theorem get_path_preserves (s : Sys) (p : String) (hwf : RegWF s)
    (hinv : StoreInv s) :
    (Cache._get_path s p).2.isOk = true →
    StoreInv (Cache._get_path s p).1 ∧ RegWF (Cache._get_path s p).1 := by
  unfold Cache._get_path
  dsimp only
  split
  · split
    · next s1 e heq =>
        intro hok
        simp [Except.isOk, Except.toBool] at hok
    · next s1 a heq =>
        intro _
        have h := replace_dummy_inner_preserves s (get_inode s p) hwf hinv
          (by rw [heq]; rfl)
        rw [heq] at h
        exact h
  · intro _
    exact ⟨hinv, hwf⟩

theorem open_preserves (s : Sys) (p : String) (fl : Flags)
    (hcreat : fl.creat = false) (hwf : RegWF s) (hinv : StoreInv s) :
    (Cache.open' s p fl).2.isOk = true →
    StoreInv (Cache.open' s p fl).1 ∧ RegWF (Cache.open' s p fl).1 := by
  unfold Cache.open'
  dsimp only
  split
  · next s1 e heq =>
      intro hok
      simp [Except.isOk, Except.toBool] at hok
  · next s1 k heq =>
      intro hok
      have h1 := get_path_preserves (record s (Event.lock p true true 100)) p
        hwf hinv (by rw [heq]; rfl)
      rw [heq] at h1
      rcases hrun : os_open s1 k fl 511 with ⟨s2, r2⟩
      rw [hrun] at hok
      cases r2 with
      | error e => simp [Except.isOk, Except.toBool] at hok
      | ok v =>
          obtain ⟨hreg, hst, hni, hex⟩ := os_open_nocreat_forms' k fl 511 hcreat hrun
          exact ⟨storeInv_of_forms s1 s2 h1.1 hreg (fun j => by rw [hst])
            (fun q => hex _) (fun q => hex _), regWF_of_eq s1 s2 h1.2 hreg hni hst⟩

theorem entryOK_of_pre (s : Sys) (hinv : StoreInv s)
    (disk' : List (CKey × File)) (st' : List (Option Nat × Tag)) {q : String}
    {j : Nat} (hmem : (q, j) ∈ s.registry)
    (hb : bareEx disk' q = bareEx s.disk q)
    (hd : dummyEx disk' q = dummyEx s.disk q)
    (hal : alookup st' (some j) = alookup s.states (some j)) :
    entryOK disk' st' (q, j) = true := by
  rw [entryOK_congr s.disk disk' s.states st' (q, j) hb hd hal]
  exact (storeInv_iff s).mp hinv (q, j) hmem

theorem invB_set_tag (s : Sys) (hwf : RegWF s) (hinv : StoreInv s)
    (disk' : List (CKey × File)) (p : String) (t : Tag)
    (hb : ∀ q, bareEx disk' q = bareEx s.disk q)
    (hd : ∀ q, dummyEx disk' q = dummyEx s.disk q)
    (hform : formOK disk' p t = true) :
    InvB disk' s.registry (aset s.states (get_inode s p) t) = true := by
  rw [InvB, List.all_eq_true]
  rintro ⟨q, j⟩ he
  rcases hgi : get_inode s p with _ | i
  · exact entryOK_of_pre s hinv _ _ he (hb q) (hd q)
      (alookup_aset_ne _ _ _ _ (by simp))
  · have hpmem : (p, i) ∈ s.registry := mem_of_alookup_eq_some _ _ _ hgi
    by_cases hji : j = i
    · subst hji
      have hqp : q = p := registry_inode_unique hwf he hpmem
      subst hqp
      unfold entryOK
      rw [alookup_aset_self]
      exact hform
    · exact entryOK_of_pre s hinv _ _ he (hb q) (hd q)
        (alookup_aset_ne _ _ _ _ (by simp [hji]))

theorem invB_delete (s : Sys) (hwf : RegWF s) (hinv : StoreInv s)
    (disk' : List (CKey × File)) (p : String) (t : Tag)
    (hb : ∀ q, q ≠ p → bareEx disk' q = bareEx s.disk q)
    (hd : ∀ q, q ≠ p → dummyEx disk' q = dummyEx s.disk q) :
    InvB disk' (aremove s.registry p)
      (aset s.states (get_inode s p) t) = true := by
  rw [InvB, List.all_eq_true]
  rintro ⟨q, j⟩ he
  obtain ⟨hmem, hqp⟩ := mem_aremove_imp he
  have hqp' : q ≠ p := hqp
  have hal : alookup (aset s.states (get_inode s p) t) (some j) =
      alookup s.states (some j) := by
    rcases hgi : get_inode s p with _ | i
    · exact alookup_aset_ne _ _ _ _ (by simp)
    · have hpmem : (p, i) ∈ s.registry := mem_of_alookup_eq_some _ _ _ hgi
      have hji : j ≠ i := by
        intro hji
        subst hji
        exact hqp' (registry_inode_unique hwf hmem hpmem)
      exact alookup_aset_ne _ _ _ _ (by simp [hji])
  exact entryOK_of_pre s hinv _ _ hmem (hb q hqp') (hd q hqp') hal

theorem invB_states_unchanged_delete (s : Sys) (hinv : StoreInv s)
    (disk' : List (CKey × File)) (p : String)
    (hb : ∀ q, q ≠ p → bareEx disk' q = bareEx s.disk q)
    (hd : ∀ q, q ≠ p → dummyEx disk' q = dummyEx s.disk q) :
    InvB disk' (aremove s.registry p) s.states = true := by
  rw [InvB, List.all_eq_true]
  rintro ⟨q, j⟩ he
  obtain ⟨hmem, hqp⟩ := mem_aremove_imp he
  exact entryOK_of_pre s hinv _ _ hmem (hb q hqp) (hd q hqp) rfl

theorem invB_append_fresh (s : Sys) (hwf : RegWF s) (hinv : StoreInv s)
    (disk' : List (CKey × File)) (st' : List (Option Nat × Tag)) (p : String)
    (hpreg : alookup s.registry p = none)
    (hb : ∀ q, q ≠ p → bareEx disk' q = bareEx s.disk q)
    (hd : ∀ q, q ≠ p → dummyEx disk' q = dummyEx s.disk q)
    (tagOK : entryOK disk' st' (p, s.nextInode) = true)
    (hal : ∀ j, j < s.nextInode →
      alookup st' (some j) = alookup s.states (some j)) :
    InvB disk' (s.registry ++ [(p, s.nextInode)]) st' = true := by
  rw [InvB, List.all_eq_true]
  rintro ⟨q, j⟩ he
  rcases List.mem_append.mp he with hm | hm
  · have hqp : q ≠ p := by
      intro hqp
      subst hqp
      rw [alookup_eq_none_iff_keys] at hpreg
      exact hpreg (List.mem_map_of_mem Prod.fst hm)
    exact entryOK_of_pre s hinv _ _ hm (hb q hqp) (hd q hqp)
      (hal j (hwf.2.2.1 _ hm))
  · simp only [List.mem_singleton, Prod.mk.injEq] at hm
    obtain ⟨hq, hj⟩ := hm
    subst hq
    subst hj
    exact tagOK

theorem states_bound_mono {l : List (Option Nat × Tag)} {n m : Nat}
    (hnm : n ≤ m)
    (h : l.all (fun e => match e.1 with
      | none => true
      | some j => decide (j < n)) = true) :
    l.all (fun e => match e.1 with
      | none => true
      | some j => decide (j < m)) = true := by
  rw [List.all_eq_true] at h ⊢
  intro e he
  have := h e he
  cases hx : e.1 with
  | none => simp [hx]
  | some j =>
      rw [hx] at this
      simp only [decide_eq_true_eq] at this ⊢
      omega

theorem write_preserves (s : Sys) (p d : String) (off fh : Nat)
    (hfd : alookup s.fds fh = some (to_cache_path p))
    (hnd : dummyEx s.disk p = false) (hwf : RegWF s) (hinv : StoreInv s) :
    (Cache.write s p d off fh).2.isOk = true →
    StoreInv (Cache.write s p d off fh).1 ∧
    RegWF (Cache.write s p d off fh).1 := by
  unfold Cache.write
  dsimp only
  simp only [handle_inode_access_eq]
  split
  · intro hok
    simp [Except.isOk, Except.toBool] at hok
  · next s2 r heq =>
      intro _
      obtain ⟨k, f, c, hk, hfk, hfc, hreg, hst, hni, hex⟩ :=
        os_write_ok' fh d off heq
      have hk' : alookup s.fds fh = some k := hk
      rw [hfd] at hk'
      have hkp : k = to_cache_path p := (Option.some.inj hk').symm
      subst hkp
      have hreg' : s2.registry = s.registry := hreg
      have hst' : s2.states = s.states := hst
      have hni' : s2.nextInode = s.nextInode := hni
      have hoieq : get_inode (record s (Event.lock p true true 100)) p =
          get_inode s p := rfl
      have hb2 : bareEx s2.disk p = true := by
        unfold bareEx
        rw [hex, hfk]
        rfl
      have hd2 : dummyEx s2.disk p = false := by
        unfold dummyEx
        rw [hex]
        exact hnd
      constructor
      · show InvB (set_dirty s2 _).disk (set_dirty s2 _).registry
          (set_dirty s2 _).states = true
        rw [set_dirty_disk, set_dirty_registry, set_dirty_states, hreg', hst',
          hoieq]
        refine invB_set_tag s hwf hinv s2.disk p Tag.dirty
          (fun q => hex _) (fun q => hex _) ?_
        show (bareEx s2.disk p && !dummyEx s2.disk p) = true
        rw [hb2, hd2]
        rfl
      · refine regWF_of_aset_states s _ (get_inode s p) Tag.dirty hwf ?_ ?_ ?_ ?_
        · rw [set_dirty_registry, hreg']
        · rw [set_dirty_nextInode, hni']
        · rw [set_dirty_states, hst', hoieq]
        · intro j hj
          exact hwf.2.2.1 _ (mem_of_alookup_eq_some _ _ _ hj)

theorem get_path_ok_facts (s : Sys) (p : String) (hwf : RegWF s)
    (hinv : StoreInv s) :
    (Cache._get_path s p).2.isOk = true →
    StoreInv (Cache._get_path s p).1 ∧ RegWF (Cache._get_path s p).1 ∧
    (Cache._get_path s p).2 = .ok (to_cache_path p) ∧
    (Cache._get_path s p).1.registry = s.registry ∧
    (Cache._get_path s p).1.nextInode = s.nextInode ∧
    dummyEx (Cache._get_path s p).1.disk p = false := by
  unfold Cache._get_path
  dsimp only
  split
  · split
    · next s1 e heq =>
        intro hok
        simp [Except.isOk, Except.toBool] at hok
    · next s1 a heq =>
        intro _
        have hpres := replace_dummy_inner_preserves s (get_inode s p) hwf hinv
          (by rw [heq]; rfl)
        rw [heq] at hpres
        obtain ⟨i, p0, hoi, hcanon, hreg, hni, hst, hbar, hdum, hbq, hdq⟩ :=
          replace_dummy_inner_ok s (get_inode s p) (by rw [heq]; rfl)
        rw [heq] at hreg hni hst hbar hdum hbq hdq
        simp only at hreg hni hst hbar hdum hbq hdq
        have hpi : (p, i) ∈ s.registry := mem_of_alookup_eq_some _ _ _ hoi
        have hp0 : p0 = p :=
          registry_inode_unique hwf (get_paths_head_mem s i p0 hcanon) hpi
        subst hp0
        exact ⟨hpres.1, hpres.2, rfl, hreg, hni, hdum⟩
  · next hdum0 =>
      intro _
      refine ⟨hinv, hwf, rfl, rfl, rfl, ?_⟩
      show os_path_exists s (add_dummy_ending (to_cache_path p)) = false
      simpa using hdum0

theorem truncate_core (s1 : Sys) (p : String) (f2 : File)
    (hwf1 : RegWF s1) (hinv1 : StoreInv s1)
    (hbare1 : bareEx s1.disk p = true) (hdum1 : dummyEx s1.disk p = false) :
    InvB (aset s1.disk (to_cache_path p) f2) s1.registry
      (aset s1.states (get_inode s1 p) Tag.dirty) = true := by
  refine invB_set_tag s1 hwf1 hinv1 _ p Tag.dirty ?_ ?_ ?_
  · intro q
    by_cases hq : q = p
    · subst hq
      rw [bareEx_aset_bare_self, hbare1]
    · exact bareEx_aset_bare_ne _ _ _ _ hq
  · intro q
    exact dummyEx_aset_bare _ _ _ _
  · show (bareEx _ p && !dummyEx _ p) = true
    rw [bareEx_aset_bare_self, dummyEx_aset_bare, hdum1]
    rfl

theorem truncate_preserves (s : Sys) (p : String) (n : Nat)
    (hwf : RegWF s) (hinv : StoreInv s) :
    (Cache.truncate s p n).2.isOk = true →
    StoreInv (Cache.truncate s p n).1 ∧ RegWF (Cache.truncate s p n).1 := by
  unfold Cache.truncate
  dsimp only
  simp only [handle_inode_access_eq]
  split
  · next s1 e heq =>
      intro hok
      simp [Except.isOk, Except.toBool] at hok
  · next s1 k heq =>
      have hfacts := get_path_ok_facts (record s (Event.lock p true true 100)) p
        hwf hinv (by rw [heq]; rfl)
      rw [heq] at hfacts
      obtain ⟨hinv1, hwf1, hkval, hreg1, hni1, hdum1⟩ := hfacts
      simp only at hinv1 hwf1 hkval hreg1 hni1 hdum1
      have hk : k = to_cache_path p := by
        have := hkval
        simp only [Except.ok.injEq] at this
        exact this
      subst hk
      have hgi : get_inode s1 p = get_inode s p := by
        unfold get_inode
        rw [hreg1]
        rfl
      have hbound : ∀ j, get_inode s p = some j → j < s1.nextInode := by
        intro j hj
        rw [hni1]
        exact hwf.2.2.1 _ (mem_of_alookup_eq_some _ _ _ hj)
      split
      · intro hok
        simp [Except.isOk, Except.toBool] at hok
      · next f heqf =>
          have hbare1 : bareEx s1.disk p = true := by
            unfold bareEx
            rw [show alookup s1.disk (to_cache_path p) = some f from heqf]
            rfl
          split
          · intro hok
            simp [Except.isOk, Except.toBool] at hok
          · next c heqc =>
              intro _
              constructor
              · show InvB (aset s1.disk (to_cache_path p) _) s1.registry
                  (aset s1.states (get_inode s p) Tag.dirty) = true
                rw [← hgi]
                exact truncate_core s1 p _ hwf1 hinv1 hbare1 hdum1
              · refine regWF_of_aset_states s1 _ (get_inode s p) Tag.dirty
                  hwf1 rfl rfl rfl ?_
                intro j hj
                exact hbound j hj
          · intro _
            constructor
            · show InvB (aset s1.disk (to_cache_path p) _) s1.registry
                (aset s1.states (get_inode s p) Tag.dirty) = true
              rw [← hgi]
              exact truncate_core s1 p _ hwf1 hinv1 hbare1 hdum1
            · refine regWF_of_aset_states s1 _ (get_inode s p) Tag.dirty
                hwf1 rfl rfl rfl ?_
              intro j hj
              exact hbound j hj

theorem regWF_append_core (s s' : Sys) (p : String)
    (hwf : RegWF s) (hpreg : alookup s.registry p = none)
    (hreg : s'.registry = s.registry ++ [(p, s.nextInode)])
    (hni : s'.nextInode = s.nextInode + 1)
    (hstb : s'.states.all (fun e => match e.1 with
      | none => true
      | some j => decide (j < s.nextInode + 1)) = true) : RegWF s' := by
  obtain ⟨h1, h2, h3, h4⟩ := hwf
  refine ⟨?_, ?_, ?_, ?_⟩
  · rw [hreg]
    simp only [List.map_append]
    rw [List.nodup_append]
    refine ⟨h1, List.nodup_singleton _, ?_⟩
    intro a ha hb
    simp only [List.map_cons, List.map_nil, List.mem_singleton] at hb
    subst hb
    rw [alookup_eq_none_iff_keys] at hpreg
    exact hpreg ha
  · rw [hreg]
    simp only [List.map_append]
    rw [List.nodup_append]
    refine ⟨h2, List.nodup_singleton _, ?_⟩
    intro a ha hb
    simp only [List.map_cons, List.map_nil, List.mem_singleton] at hb
    subst hb
    obtain ⟨e, hem, hev⟩ := List.mem_map.mp ha
    have := h3 e hem
    omega
  · rw [hreg, hni]
    intro e he
    rcases List.mem_append.mp he with hm | hm
    · have := h3 e hm
      omega
    · simp only [List.mem_singleton] at hm
      rw [hm]
      omega
  · rw [hni]
    exact hstb

theorem regWF_aremove_core (s s' : Sys) (p : String) (hwf : RegWF s)
    (hreg : s'.registry = aremove s.registry p)
    (hni : s'.nextInode = s.nextInode)
    (hstb : s'.states.all (fun e => match e.1 with
      | none => true
      | some j => decide (j < s.nextInode)) = true) : RegWF s' := by
  obtain ⟨h1, h2, h3, h4⟩ := hwf
  refine ⟨?_, ?_, ?_, ?_⟩
  · rw [hreg]
    exact h1.sublist ((aremove_sublist _ _).map Prod.fst)
  · rw [hreg]
    exact h2.sublist ((aremove_sublist _ _).map Prod.snd)
  · rw [hreg, hni]
    intro e he
    exact h3 e (mem_aremove_imp he).1
  · rw [hni]
    exact hstb

theorem mkdir_preserves (s : Sys) (p : String) (m : Int)
    (hpreg : alookup s.registry p = none)
    (hwf : RegWF s) (hinv : StoreInv s) :
    (Cache.mkdir s p m).2.isOk = true →
    StoreInv (Cache.mkdir s p m).1 ∧ RegWF (Cache.mkdir s p m).1 := by
  unfold Cache.mkdir os_mkdir
  dsimp only
  split
  · intro hok
    simp [Except.isOk, Except.toBool] at hok
  · intro _
    constructor
    · show InvB (aset s.disk (to_cache_path p) _)
        (s.registry ++ [(p, s.nextInode)]) s.states = true
      refine invB_append_fresh s hwf hinv _ _ p hpreg
        (fun q hq => bareEx_aset_bare_ne _ _ _ _ hq)
        (fun q _ => dummyEx_aset_bare _ _ _ _) ?_ (fun j _ => rfl)
      unfold entryOK
      rw [states_fresh_none hwf (Nat.le_refl _)]
    · refine regWF_append_core s _ p hwf hpreg rfl rfl ?_
      exact states_bound_mono (Nat.le_succ _) hwf.2.2.2

theorem create_preserves (s : Sys) (p : String) (m : Int)
    (hpreg : alookup s.registry p = none)
    (hnd : dummyEx s.disk p = false)
    (hwf : RegWF s) (hinv : StoreInv s) :
    (Cache.create s p m).2.isOk = true →
    StoreInv (Cache.create s p m).1 ∧ RegWF (Cache.create s p m).1 := by
  unfold Cache.create
  dsimp only
  simp only [handle_inode_access_eq]
  split
  · intro hok
    simp [Except.isOk, Except.toBool] at hok
  · next s1 r heq =>
      intro _
      obtain ⟨hreg1, hst1, hni1, hexk, hexne⟩ :=
        os_open_disk_forms' (to_cache_path p) O_WRONLY_CREAT_TRUNC m heq
      have hleaf : get_inode (create_path s1 p) p = some s1.nextInode := by
        unfold get_inode
        rw [create_path_registry, alookup_append, hreg1, hpreg]
        simp [alookup]
      rw [hleaf]
      have hb : ∀ q, q ≠ p → bareEx s1.disk q = bareEx s.disk q := by
        intro q hq
        unfold bareEx
        rw [hexne _ (fun hh => hq ((to_cache_path_inj q p).mp hh))]
      have hd : ∀ q, dummyEx s1.disk q = dummyEx s.disk q := by
        intro q
        unfold dummyEx
        rw [hexne _ (dummy_ne_bare _ _)]
      constructor
      · show InvB s1.disk (s1.registry ++ [(p, s1.nextInode)])
          (aset s1.states (some s1.nextInode) Tag.dirty) = true
        rw [hreg1, hst1, hni1]
        refine invB_append_fresh s hwf hinv _ _ p hpreg hb
          (fun q _ => hd q) ?_ ?_
        · unfold entryOK
          rw [alookup_aset_self]
          show (bareEx s1.disk p && !dummyEx s1.disk p) = true
          rw [hd p, hnd]
          unfold bareEx
          rw [hexk]
          rfl
        · intro j hj
          refine alookup_aset_ne _ _ _ _ ?_
          intro hh
          have := Option.some.inj hh
          omega
      · refine regWF_append_core s _ p hwf hpreg ?_ ?_ ?_
        · show s1.registry ++ [(p, s1.nextInode)] = _
          rw [hreg1, hni1]
        · show s1.nextInode + 1 = _
          rw [hni1]
        · show (aset s1.states (some s1.nextInode) Tag.dirty).all _ = true
          rw [hst1, hni1]
          rw [List.all_eq_true]
          intro e he
          rcases mem_aset_imp he with hm | hm
          · exact (List.all_eq_true.mp
              (states_bound_mono (Nat.le_succ _) hwf.2.2.2)) e hm
          · rw [hm]
            simp

theorem rmdir_preserves (s : Sys) (p : String)
    (hwf : RegWF s) (hinv : StoreInv s) :
    (Cache.rmdir s p).2.isOk = true →
    StoreInv (Cache.rmdir s p).1 ∧ RegWF (Cache.rmdir s p).1 := by
  intro hok
  obtain ⟨hreg, hdisk, hst, hni⟩ := rmdir_ok s p hok
  constructor
  · show InvB _ _ _ = true
    rw [hreg, hdisk, hst]
    exact invB_states_unchanged_delete s hinv _ p
      (fun q hq => bareEx_aremove_bare_ne _ _ _ hq)
      (fun q _ => dummyEx_aremove_bare _ _ _)
  · refine regWF_aremove_core s _ p hwf hreg hni ?_
    rw [hst]
    exact hwf.2.2.2

theorem delete_file_preserves (s : Sys) (p : String) (hwf : RegWF s)
    (hinv : StoreInv s) {s2 : Sys}
    (heq : Cache._delete_file s p = (s2, Except.ok ())) :
    StoreInv s2 ∧ RegWF s2 := by
  obtain ⟨k, hres, hreg, hdisk, hst, hni⟩ := delete_file_ok' p heq
  have hwfpart : (aset s.states (get_inode s p) Tag.toDelete).all
      (fun e => match e.1 with
        | none => true
        | some j => decide (j < s.nextInode)) = true := by
    rw [List.all_eq_true]
    intro e he
    rcases mem_aset_imp he with hm | hm
    · exact (List.all_eq_true.mp hwf.2.2.2) e hm
    · rw [hm]
      rcases hgi : get_inode s p with _ | i
      · rfl
      · have := hwf.2.2.1 _ (mem_of_alookup_eq_some _ _ _ hgi)
        simpa using this
  rcases get_path_or_dummy_cases hres with ⟨hk, hb⟩ | ⟨hk, hb, hd⟩
  · subst hk
    refine ⟨?_, ?_⟩
    · show InvB _ _ _ = true
      rw [hreg, hdisk, hst]
      exact invB_delete s hwf hinv _ p Tag.toDelete
        (fun q hq => bareEx_aremove_bare_ne _ _ _ hq)
        (fun q _ => dummyEx_aremove_bare _ _ _)
    · refine regWF_aremove_core s _ p hwf hreg hni ?_
      rw [hst]
      exact hwfpart
  · subst hk
    refine ⟨?_, ?_⟩
    · show InvB _ _ _ = true
      rw [hreg, hdisk, hst]
      exact invB_delete s hwf hinv _ p Tag.toDelete
        (fun q _ => bareEx_aremove_dummy _ _ _)
        (fun q hq => dummyEx_aremove_dummy_ne _ _ _ hq)
    · refine regWF_aremove_core s _ p hwf hreg hni ?_
      rw [hst]
      exact hwfpart

theorem is_link_true_elim {s : Sys} {kopt : Option CKey}
    (h : Cache.is_link s kopt = .ok true) :
    ∃ k f t, kopt = some k ∧ alookup s.disk k = some f ∧
      f.data = FileData.symlink t := by
  unfold Cache.is_link at h
  rcases kopt with _ | k
  · simp at h
  · dsimp only at h
    rcases hf : alookup s.disk k with _ | f
    · rw [hf] at h
      simp at h
    · rw [hf] at h
      dsimp only at h
      rcases hd : f.data with c | d | _ | t <;> rw [hd] at h
      · simp at h
      · simp at h
      · simp at h
      · exact ⟨k, f, t, rfl, hf, hd⟩

theorem unlink_preserves (s : Sys) (p : String)
    (hpre : precondB s (Op.unlink p) = true)
    (hwf : RegWF s) (hinv : StoreInv s) :
    (Cache.unlink s p).2.isOk = true →
    StoreInv (Cache.unlink s p).1 ∧ RegWF (Cache.unlink s p).1 := by
  unfold Cache.unlink
  dsimp only
  split
  · intro hok
    simp [Except.isOk, Except.toBool] at hok
  · next heqlink =>
      intro hok
      obtain ⟨k, f, t, hk, hf, hft⟩ := is_link_true_elim heqlink
      rcases hrun : os_unlink s (Cache._get_path_or_dummy s p) with ⟨s2, r⟩
      rw [hrun] at hok
      cases r with
      | error e => simp [Except.isOk, Except.toBool] at hok
      | ok v =>
          obtain ⟨k0, hk0, hreg, hdisk, hst, hni⟩ :=
            os_unlink_ok s (Cache._get_path_or_dummy s p) (by rw [hrun]; rfl)
          rw [hrun] at hreg hdisk hst hni
          simp only at hreg hdisk hst hni
          show StoreInv s2 ∧ RegWF s2
          have hk0' : k0 = k := by
            rw [hk] at hk0
            exact (Option.some.inj hk0).symm
          subst hk0'
          have htag : ∀ j, (p, j) ∈ s.registry →
              alookup s.states (some j) = none := by
            intro j hj
            have halj : alookup s.registry p = some j :=
              alookup_eq_some_of_mem_nodup hwf.1 hj
            unfold precondB at hpre
            dsimp only at hpre
            rw [hk] at hpre
            dsimp only at hpre
            rw [hf] at hpre
            dsimp only at hpre
            rw [hft] at hpre
            dsimp only at hpre
            rw [halj] at hpre
            simpa using hpre
          constructor
          · rw [storeInv_iff]
            rintro ⟨q, j⟩ he
            rw [hreg] at he
            by_cases hqp : q = p
            · subst hqp
              unfold entryOK
              rw [hst, htag j he]
            · rcases get_path_or_dummy_cases hk with ⟨hkk, _⟩ | ⟨hkk, _, _⟩
              · subst hkk
                exact entryOK_of_pre s hinv _ _ he
                  (by rw [hdisk]; exact bareEx_aremove_bare_ne _ _ _ hqp)
                  (by rw [hdisk]; exact dummyEx_aremove_bare _ _ _)
                  (by rw [hst])
              · subst hkk
                exact entryOK_of_pre s hinv _ _ he
                  (by rw [hdisk]; exact bareEx_aremove_dummy _ _ _)
                  (by rw [hdisk]; exact dummyEx_aremove_dummy_ne _ _ _ hqp)
                  (by rw [hst])
          · exact regWF_of_eq s s2 hwf hreg hni hst
  · next heqlink =>
      intro hok
      rcases hrun : Cache._delete_file (record s (Event.lock p true true 10)) p
        with ⟨s2, r⟩
      rw [hrun] at hok
      cases r with
      | error e => simp [Except.isOk, Except.toBool] at hok
      | ok v =>
          cases v
          show StoreInv s2 ∧ RegWF s2
          exact delete_file_preserves (record s (Event.lock p true true 10)) p
            hwf hinv hrun

theorem invB_rename (s : Sys) (hwf : RegWF s) (hinv : StoreInv s)
    (old new : String) (fo : File)
    (hfo : alookup s.disk (to_cache_path old) = some fo)
    (hnewreg : alookup s.registry new = none)
    (hnodum : dummyEx s.disk new = false) :
    InvB (aset (aremove s.disk (to_cache_path old)) (to_cache_path new) fo)
      (s.registry.map (fun e => if e.1 = old then (new, e.2) else e))
      s.states = true := by
  have hbold : bareEx s.disk old = true := by
    unfold bareEx
    rw [hfo]
    rfl
  rw [InvB, List.all_eq_true]
  rintro ⟨q, j⟩ he
  obtain ⟨e0, he0, hee⟩ := List.mem_map.mp he
  obtain ⟨q0, j0⟩ := e0
  by_cases h0 : q0 = old
  · subst h0
    rw [if_pos rfl] at hee
    obtain ⟨hq, hj⟩ := Prod.mk.injEq .. |>.mp hee
    subst hq
    subst hj
    unfold entryOK
    dsimp only
    rcases hal : alookup s.states (some j0) with _ | t
    · rfl
    · have hpre := (storeInv_iff s).mp hinv (q0, j0) he0
      unfold entryOK at hpre
      dsimp only at hpre
      rw [hal] at hpre
      have hbnew : bareEx (aset (aremove s.disk (to_cache_path q0))
          (to_cache_path new) fo) new = true :=
        bareEx_aset_bare_self _ _ _
      have hdnew : dummyEx (aset (aremove s.disk (to_cache_path q0))
          (to_cache_path new) fo) new = false := by
        rw [dummyEx_aset_bare, dummyEx_aremove_bare]
        exact hnodum
      cases t with
      | remote =>
          exfalso
          simp only [formOK, Bool.and_eq_true, Bool.not_eq_true'] at hpre
          rw [hpre.2] at hbold
          cases hbold
      | toDelete =>
          exfalso
          simp only [formOK, Bool.and_eq_true, Bool.not_eq_true'] at hpre
          rw [hpre.1] at hbold
          cases hbold
      | dirty =>
          show (bareEx _ new && !dummyEx _ new) = true
          rw [hbnew, hdnew]
          rfl
      | cleanLocal =>
          show (bareEx _ new && !dummyEx _ new) = true
          rw [hbnew, hdnew]
          rfl
  · rw [if_neg h0] at hee
    obtain ⟨hq, hj⟩ := Prod.mk.injEq .. |>.mp hee
    subst hq
    subst hj
    have hqnew : q0 ≠ new := by
      intro hh
      subst hh
      rw [alookup_eq_none_iff_keys] at hnewreg
      exact hnewreg (List.mem_map_of_mem Prod.fst he0)
    refine entryOK_of_pre s hinv _ _ he0 ?_ ?_ rfl
    · rw [bareEx_aset_bare_ne _ _ _ _ hqnew, bareEx_aremove_bare_ne _ _ _ h0]
    · rw [dummyEx_aset_bare, dummyEx_aremove_bare]

theorem regWF_rename (s s' : Sys) (old new : String) (hwf : RegWF s)
    (hnewreg : alookup s.registry new = none)
    (hreg : s'.registry =
      s.registry.map (fun e => if e.1 = old then (new, e.2) else e))
    (hni : s'.nextInode = s.nextInode) (hst : s'.states = s.states) :
    RegWF s' := by
  obtain ⟨h1, h2, h3, h4⟩ := hwf
  rw [alookup_eq_none_iff_keys] at hnewreg
  refine ⟨?_, ?_, ?_, ?_⟩
  · rw [hreg]
    have hkeys : (s.registry.map
        (fun e => if e.1 = old then (new, e.2) else e)).map Prod.fst =
        (s.registry.map Prod.fst).map
          (fun x => if x = old then new else x) := by
      rw [List.map_map, List.map_map]
      apply List.map_congr_left
      intro e _
      by_cases h : e.1 = old <;> simp [h]
    rw [hkeys]
    refine List.Nodup.map_on ?_ h1
    intro x hx y hy hxy
    by_cases hx0 : x = old <;> by_cases hy0 : y = old
    · rw [hx0, hy0]
    · rw [if_pos hx0, if_neg hy0] at hxy
      exact absurd (hxy ▸ hy) hnewreg
    · rw [if_neg hx0, if_pos hy0] at hxy
      exact absurd (hxy ▸ hx) hnewreg
    · rw [if_neg hx0, if_neg hy0] at hxy
      exact hxy
  · rw [hreg]
    have hsnd : (s.registry.map
        (fun e => if e.1 = old then (new, e.2) else e)).map Prod.snd =
        s.registry.map Prod.snd := by
      rw [List.map_map]
      apply List.map_congr_left
      intro e _
      by_cases h : e.1 = old <;> simp [h]
    rw [hsnd]
    exact h2
  · rw [hreg, hni]
    intro e he
    obtain ⟨e0, he0, hee⟩ := List.mem_map.mp he
    have : e.2 = e0.2 := by
      rw [← hee]
      by_cases h : e0.1 = old <;> simp [h]
    rw [this]
    exact h3 e0 he0
  · rw [hni, hst]
    exact h4

theorem rename_tail_preserves (s : Sys) (old new : String)
    (hwf : RegWF s) (hinv : StoreInv s)
    (hnewreg : alookup s.registry new = none)
    (hnodum : dummyEx s.disk new = false) :
    (Cache.rename_tail s old new).2.isOk = true →
    StoreInv (Cache.rename_tail s old new).1 ∧
    RegWF (Cache.rename_tail s old new).1 := by
  unfold Cache.rename_tail
  split
  · intro hok
    simp [Except.isOk, Except.toBool] at hok
  · next s1 a heq =>
      intro _
      obtain ⟨fo, hfo, hreg1, hst1, hni1, hdl1, hdisk1⟩ :=
        os_rename_ok s (to_cache_path old) (to_cache_path new)
          (by rw [heq]; rfl)
      rw [heq] at hreg1 hst1 hni1 hdl1 hdisk1
      simp only at hreg1 hst1 hni1 hdl1 hdisk1
      constructor
      · show InvB _ _ _ = true
        rw [rename_paths_disk, rename_paths_states,
          show (rename_paths s1 old new).registry =
            s1.registry.map (fun e => if e.1 = old then (new, e.2) else e)
            from rfl,
          hreg1, hst1, hdisk1]
        exact invB_rename s hwf hinv old new fo hfo hnewreg hnodum
      · refine regWF_rename s _ old new hwf hnewreg ?_ ?_ ?_
        · show (rename_paths s1 old new).registry = _
          rw [show (rename_paths s1 old new).registry =
            s1.registry.map (fun e => if e.1 = old then (new, e.2) else e)
            from rfl, hreg1]
        · rw [rename_paths_nextInode, hni1]
        · rw [rename_paths_states, hst1]

theorem rename_preserves (s : Sys) (old new : String)
    (hpre : precondB s (Op.rename old new) = true)
    (hwf : RegWF s) (hinv : StoreInv s) :
    (Cache.rename s old new).2.isOk = true →
    StoreInv (Cache.rename s old new).1 ∧
    RegWF (Cache.rename s old new).1 := by
  unfold precondB at hpre
  dsimp only at hpre
  unfold Cache.rename
  dsimp only
  split
  · next j hj =>
      have hjs : alookup s.registry new = some j := hj
      rw [hjs] at hpre
      dsimp only at hpre
      split
      · next hcond =>
          split
          · intro hok
            simp [Except.isOk, Except.toBool] at hok
          · next s2 a heq =>
              cases a
              have hwf1 : RegWF (record (record s (Event.lock old true true
                100)) (Event.lock new true true 100)) := hwf
              have hinv1 : StoreInv (record (record s (Event.lock old true
                true 100)) (Event.lock new true true 100)) := hinv
              obtain ⟨h2inv, h2wf⟩ := delete_file_preserves _ new hwf1 hinv1 heq
              obtain ⟨k, hres, hreg2, hdisk2, hst2, hni2⟩ :=
                delete_file_ok' new heq
              have hnr : alookup s2.registry new = none := by
                rw [hreg2]
                exact alookup_aremove_self _ _
              have hmem : (new, j) ∈ s.registry :=
                mem_of_alookup_eq_some _ _ _ hjs
              have hcs : (alookup s.states (some j)).isSome = true := hcond
              rcases hts : alookup s.states (some j) with _ | t
              · rw [hts] at hcs
                cases hcs
              · have hform : formOK s.disk new t = true := by
                  have he := (storeInv_iff s).mp hinv (new, j) hmem
                  unfold entryOK at he
                  dsimp only at he
                  rw [hts] at he
                  exact he
                have hnd : dummyEx s2.disk new = false := by
                  rw [hdisk2]
                  have hres' : Cache._get_path_or_dummy s new = some k := hres
                  rcases get_path_or_dummy_cases hres' with
                    ⟨hk, hb⟩ | ⟨hk, hb, hd⟩
                  · subst hk
                    cases t with
                    | remote =>
                        exfalso
                        simp only [formOK, Bool.and_eq_true,
                          Bool.not_eq_true'] at hform
                        rw [hform.2] at hb
                        cases hb
                    | toDelete =>
                        exfalso
                        simp only [formOK, Bool.and_eq_true,
                          Bool.not_eq_true'] at hform
                        rw [hform.1] at hb
                        cases hb
                    | dirty =>
                        simp only [formOK, Bool.and_eq_true,
                          Bool.not_eq_true'] at hform
                        rw [dummyEx_aremove_bare]
                        exact hform.2
                    | cleanLocal =>
                        simp only [formOK, Bool.and_eq_true,
                          Bool.not_eq_true'] at hform
                        rw [dummyEx_aremove_bare]
                        exact hform.2
                  · subst hk
                    exact dummyEx_aremove_dummy_self _ _
                exact rename_tail_preserves s2 old new h2wf h2inv hnr hnd
      · next hcond =>
          split
          · intro hok
            simp [Except.isOk, Except.toBool] at hok
          · next s2 a heq =>
              have hwf0 : RegWF (record s (Event.lock old true true 100)) :=
                hwf
              have hinv0 : StoreInv (record s (Event.lock old true true
                100)) := hinv
              have h := rmdir_preserves _ new hwf0 hinv0 (by rw [heq]; rfl)
              rw [heq] at h
              obtain ⟨h2inv, h2wf⟩ := h
              obtain ⟨hreg2, hdisk2, hst2, hni2⟩ := rmdir_ok' new heq
              have hnr : alookup s2.registry new = none := by
                rw [hreg2]
                exact alookup_aremove_self _ _
              have hcs : (alookup s.states (some j)).isSome = false := by
                have : state_exists (record s (Event.lock old true true 100))
                  (some j) = false := by
                    cases hx : state_exists (record s (Event.lock old true
                      true 100)) (some j)
                    · rfl
                    · exact absurd hx hcond
                exact this
              rw [hcs] at hpre
              simp only [Bool.false_or, Bool.not_eq_true'] at hpre
              have hnd : dummyEx s2.disk new = false := by
                rw [hdisk2]
                show dummyEx (aremove s.disk (to_cache_path new)) new = false
                rw [dummyEx_aremove_bare]
                exact hpre
              exact rename_tail_preserves s2 old new h2wf h2inv hnr hnd
  · next hj =>
      have hjs : alookup s.registry new = none := hj
      rw [hjs] at hpre
      dsimp only at hpre
      simp only [Bool.not_eq_true'] at hpre
      have hwf0 : RegWF (record s (Event.lock old true true 100)) := hwf
      have hinv0 : StoreInv (record s (Event.lock old true true 100)) := hinv
      exact rename_tail_preserves _ old new hwf0 hinv0 hjs hpre

theorem invB_set_tag_at (s : Sys) (hwf : RegWF s) (hinv : StoreInv s)
    (disk' : List (CKey × File)) (p : String) (t : Tag)
    (hb : ∀ q, q ≠ p → bareEx disk' q = bareEx s.disk q)
    (hd : ∀ q, q ≠ p → dummyEx disk' q = dummyEx s.disk q)
    (hform : formOK disk' p t = true) :
    InvB disk' s.registry (aset s.states (get_inode s p) t) = true := by
  rw [InvB, List.all_eq_true]
  rintro ⟨q, j⟩ he
  rcases hgi : get_inode s p with _ | i
  · have hgi' : alookup s.registry p = none := hgi
    have hqp : q ≠ p := by
      intro hh
      subst hh
      rw [alookup_eq_none_iff_keys] at hgi'
      exact hgi' (List.mem_map_of_mem Prod.fst he)
    exact entryOK_of_pre s hinv _ _ he (hb q hqp) (hd q hqp)
      (alookup_aset_ne _ _ _ _ (by simp))
  · have hpmem : (p, i) ∈ s.registry := mem_of_alookup_eq_some _ _ _ hgi
    by_cases hji : j = i
    · subst hji
      have hqp : q = p := registry_inode_unique hwf he hpmem
      subst hqp
      unfold entryOK
      rw [alookup_aset_self]
      exact hform
    · have hqp : q ≠ p := by
        intro hh
        subst hh
        exact hji (registry_key_unique hwf he hpmem)
      exact entryOK_of_pre s hinv _ _ he (hb q hqp) (hd q hqp)
        (alookup_aset_ne _ _ _ _ (by simp [hji]))

theorem replace_dummy_preserves (s : Sys) (oi : Option Nat)
    (hwf : RegWF s) (hinv : StoreInv s) :
    (Cache.replace_dummy s oi).2.isOk = true →
    StoreInv (Cache.replace_dummy s oi).1 ∧
    RegWF (Cache.replace_dummy s oi).1 := by
  unfold Cache.replace_dummy
  split
  · intro hok
    simp [Except.isOk, Except.toBool] at hok
  · next path heq =>
      dsimp only
      intro hok
      have hwf0 : RegWF (record s (Event.lockDefault path)) := hwf
      have hinv0 : StoreInv (record s (Event.lockDefault path)) := hinv
      exact replace_dummy_inner_preserves _ oi hwf0 hinv0 hok

theorem create_dummy_preserves (s : Sys) (oi : Option Nat)
    (hwf : RegWF s) (hinv : StoreInv s) :
    (Cache.create_dummy s oi).2.isOk = true →
    StoreInv (Cache.create_dummy s oi).1 ∧
    RegWF (Cache.create_dummy s oi).1 := by
  unfold Cache.create_dummy
  split
  · intro hok
    simp [Except.isOk, Except.toBool] at hok
  · next path heq0 =>
      dsimp only
      split
      · next hclean =>
          split
          · intro hok
            simp [Except.isOk, Except.toBool] at hok
          · next stat heq1 =>
              split
              · intro hok
                simp [Except.isOk, Except.toBool] at hok
              · next s2 a heq2 =>
                  split
                  · intro hok
                    simp [Except.isOk, Except.toBool] at hok
                  · next f heq3 =>
                      intro _
                      rcases oi with _ | i
                      · exfalso
                        simp [get_paths] at heq0
                      obtain ⟨f0, hf0, hreg2, hst2, hni2, hdl2, hdisk2⟩ :=
                        os_rename_ok (record s (Event.lockDefault path))
                          (to_cache_path path)
                          (add_dummy_ending (to_cache_path path))
                          (by rw [heq2]; rfl)
                      rw [heq2] at hreg2 hst2 hni2 hdl2 hdisk2
                      simp only [record_registry, record_states,
                        record_nextInode, record_disk]
                        at hreg2 hst2 hni2 hdl2 hdisk2
                      have hmem : (path, i) ∈ s.registry :=
                        get_paths_head_mem s i path heq0
                      have hgi : get_inode s path = some i :=
                        alookup_eq_some_of_mem_nodup hwf.1 hmem
                      constructor
                      · show InvB
                          (aset s2.disk (add_dummy_ending (to_cache_path
                            path)) { f with data := FileData.statJson stat })
                          s2.registry
                          (aset s2.states (some i) Tag.remote) = true
                        rw [hreg2, hst2, ← hgi]
                        refine invB_set_tag_at s hwf hinv _ path Tag.remote
                          ?_ ?_ ?_
                        · intro q hq
                          show (alookup (aset s2.disk _ _)
                            (to_cache_path q)).isSome = _
                          rw [alookup_aset_ne _ _ _ _ (bare_ne_dummy _ _),
                            hdisk2,
                            alookup_aset_ne _ _ _ _ (bare_ne_dummy _ _),
                            alookup_aremove_ne _ _ _ (by
                              intro hh
                              exact hq ((to_cache_path_inj q path).mp hh))]
                          rfl
                        · intro q hq
                          show (alookup (aset s2.disk _ _)
                            (add_dummy_ending (to_cache_path q))).isSome = _
                          rw [alookup_aset_ne _ _ _ _ (by
                              intro hh
                              exact hq ((dummy_to_cache_path_inj q
                                path).mp hh)),
                            hdisk2,
                            alookup_aset_ne _ _ _ _ (by
                              intro hh
                              exact hq ((dummy_to_cache_path_inj q
                                path).mp hh)),
                            alookup_aremove_ne _ _ _ (dummy_ne_bare _ _)]
                          rfl
                        · show (dummyEx _ path && !bareEx _ path) = true
                          have hdum : dummyEx
                              (aset s2.disk (add_dummy_ending (to_cache_path
                                path)) { f with data :=
                                  FileData.statJson stat }) path = true := by
                            show (alookup _ _).isSome = true
                            rw [alookup_aset_self]
                            rfl
                          have hbar : bareEx
                              (aset s2.disk (add_dummy_ending (to_cache_path
                                path)) { f with data :=
                                  FileData.statJson stat }) path = false := by
                            show (alookup _ _).isSome = false
                            rw [alookup_aset_ne _ _ _ _ (bare_ne_dummy _ _),
                              hdisk2,
                              alookup_aset_ne _ _ _ _ (bare_ne_dummy _ _),
                              alookup_aremove_self]
                            rfl
                          rw [hdum, hbar]
                          rfl
                      · refine regWF_of_aset_states s _ (some i) Tag.remote
                          hwf ?_ ?_ ?_ ?_
                        · show s2.registry = s.registry
                          exact hreg2
                        · show s2.nextInode = s.nextInode
                          exact hni2
                        · show aset s2.states (some i) Tag.remote = _
                          rw [hst2]
                        · intro j hj
                          have : i = j := Option.some.inj hj
                          subst this
                          exact hwf.2.2.1 _ hmem
      · intro _
        exact ⟨hinv, hwf⟩

theorem except_isOk_map {α β : Type} (f : α → β) (r : Except Err α) :
    (Except.map f r).isOk = r.isOk := by
  cases r <;> rfl

/-- C1 (amended): for every logical file known to the inode registry, the
state-store tag matches the on-disk form — remote if and only if the
suffixed placeholder exists and the bare cache path does not, dirty or
clean-local if and only if the bare cache path exists and the placeholder
does not, to-delete if and only if neither exists — as an invariant of
every completed Cache operation under the operation preconditions of
precondB (open without creation, write through a descriptor bound to the
argument's bare cache path with no coexisting placeholder, create and
mkdir on unregistered paths with no leftover placeholder for create, a
rename destination carrying a placeholder only when it is a registered
file, unlink resolving to a symlink only for untagged paths), together
with well-formedness of the inode registry.  Without the preconditions
the matching is not preserved by every completed operation. -/
theorem store_inv_preserved (s : Sys) (op : Op)
    (hwf : RegWF s) (hinv : StoreInv s) (hpre : precond s op)
    (hok : (runOp s op).2.isOk = true) :
    StoreInv (runOp s op).1 ∧ RegWF (runOp s op).1 := by
  cases op with
  | open' p fl =>
      have hp : precondB s (Op.open' p fl) = true := hpre
      unfold precondB at hp
      dsimp only at hp
      rw [Bool.not_eq_true'] at hp
      have hok' : (Except.map (fun _ => ()) (Cache.open' s p fl).2).isOk
          = true := hok
      rw [except_isOk_map] at hok'
      exact open_preserves s p fl hp hwf hinv hok'
  | read p sz off fh =>
      unfold runOp Cache.read
      dsimp only
      rw [os_read_state]
      exact ⟨hinv, hwf⟩
  | write p d off fh =>
      have hp : precondB s (Op.write p d off fh) = true := hpre
      unfold precondB at hp
      dsimp only at hp
      rw [Bool.and_eq_true] at hp
      have hok' : (Except.map (fun _ => ())
          (Cache.write s p d off fh).2).isOk = true := hok
      rw [except_isOk_map] at hok'
      refine write_preserves s p d off fh ?_ ?_ hwf hinv hok'
      · have h1 := hp.1
        rw [beq_iff_eq] at h1
        exact h1
      · have h2 := hp.2
        rw [Bool.not_eq_true'] at h2
        exact h2
  | truncate p n =>
      exact truncate_preserves s p n hwf hinv hok
  | create p m =>
      have hp : precondB s (Op.create p m) = true := hpre
      unfold precondB at hp
      dsimp only at hp
      rw [Bool.and_eq_true] at hp
      have hok' : (Except.map (fun _ => ())
          (Cache.create s p m).2).isOk = true := hok
      rw [except_isOk_map] at hok'
      refine create_preserves s p m ?_ ?_ hwf hinv hok'
      · have h1 := hp.1
        rw [Option.isNone_iff_eq_none] at h1
        exact h1
      · have h2 := hp.2
        rw [Bool.not_eq_true'] at h2
        exact h2
  | rename o n =>
      exact rename_preserves s o n hpre hwf hinv hok
  | mkdir p m =>
      have hp : precondB s (Op.mkdir p m) = true := hpre
      unfold precondB at hp
      dsimp only at hp
      rw [Option.isNone_iff_eq_none] at hp
      exact mkdir_preserves s p m hp hwf hinv hok
  | rmdir p =>
      exact rmdir_preserves s p hwf hinv hok
  | unlink p =>
      exact unlink_preserves s p hpre hwf hinv hok
  | getattributes p =>
      exact ⟨hinv, hwf⟩
  | create_dummy i =>
      exact create_dummy_preserves s i hwf hinv hok
  | replace_dummy i =>
      exact replace_dummy_preserves s i hwf hinv hok

/-- C1 (counterexample to the unconditional claim): from a state satisfying
the tag/on-disk matching and registry well-formedness — /a registered and
remote with only its placeholder on disk — the create operation on /a
completes, yet afterwards the matching fails: /a keeps its remote-path
placeholder while create has put a bare file beside it and tagged the
inode dirty. -/
theorem create_breaks_matching_cex :
    StoreInv c1pre ∧ RegWF c1pre ∧
    (runOp c1pre (Op.create "/a" 420)).2.isOk = true ∧
    ¬ StoreInv (runOp c1pre (Op.create "/a" 420)).1 :=
  ⟨by unfold StoreInv; decide, ⟨by decide, by decide, by decide, by decide⟩,
   by decide, by unfold StoreInv; decide⟩

/-- Closed witness for the amended C1: unlink of the dirty resident file
/a from a well-formed matching state completes and the conclusion of the
preservation theorem holds there. -/
theorem store_inv_preserved_witness :
    RegWF c1w ∧ StoreInv c1w ∧ precond c1w (Op.unlink "/a") ∧
    (runOp c1w (Op.unlink "/a")).2.isOk = true ∧
    (StoreInv (runOp c1w (Op.unlink "/a")).1 ∧
     RegWF (runOp c1w (Op.unlink "/a")).1) :=
  ⟨⟨by decide, by decide, by decide, by decide⟩,
   by unfold StoreInv; decide, by unfold precond; decide,
   by decide,
   store_inv_preserved c1w (Op.unlink "/a")
     ⟨by decide, by decide, by decide, by decide⟩
     (by unfold StoreInv; decide) (by unfold precond; decide)
     (by decide)⟩
